import Mathlib

/-!
Shallow embedding of the jsonsheet core (state/data_model.rs, state/jsheet.rs,
state/table_state.rs, io/jsheet_io.rs) and proofs about the frozen claims.

Modelling conventions, used throughout:
* Rust `serde_json::Value` is the inductive `JSheet.JValue`; `serde_json::Number`
  is `JSheet.JNum` with the three serde variants (`PosInt(u64)`, `NegInt(i64)`,
  finite `Float(f64)`).  Finite doubles are idealized as exact rationals; the
  non-finite intermediate results produced by formula arithmetic are modelled
  by `Option ℚ` with `none` standing for a non-finite f64 (NaN or infinity).
  Theorems below only rely on float behaviour the idealization preserves
  (the exact zero test of the division guard, finiteness propagation, and
  arithmetic on small integer-valued operands).
* Rust `BTreeMap<String, _>` is a key-sorted association list (`JSheet.AList`)
  with `alInsert` inserting at the sorted position and replacing an existing
  key, which also reproduces the map iteration order.  `BTreeSet<String>` is a
  sorted duplicate-free `List String`.  A `Row` is such a map of `JValue`s.
* Rust `Vec` push/pop stacks are Lean lists with the top at the head.
* Functions whose Rust originals recurse through the heap (the lexer, the
  recursive-descent formula parsing, the cycle-guarded evaluator) take an
  explicit fuel argument; the fuel handed out by the public entry points is
  large enough that the out-of-fuel branch is unreachable (for the evaluator
  this is proved as part of claim C1).
-/

namespace JSheet

/-- Number type mirroring serde_json::Number: an unsigned 64-bit integer, a
negative signed 64-bit integer (invariant: the payload is negative), or a
finite double idealized as a rational. -/
inductive JNum where
  | posInt (n : Nat)
  | negInt (v : Int)
  | float (q : ℚ)
deriving DecidableEq, Repr

/-- JSON value mirroring serde_json::Value. -/
inductive JValue where
  | null
  | bool (b : Bool)
  | num (n : JNum)
  | str (s : String)
  | arr (xs : List JValue)
  | obj (kvs : List (String × JValue))
deriving Repr

mutual

def JValue.beq : JValue → JValue → Bool
  | .null, .null => true
  | .bool a, .bool b => a == b
  | .num a, .num b => a == b
  | .str a, .str b => a == b
  | .arr a, .arr b => JValue.beqList a b
  | .obj a, .obj b => JValue.beqObj a b
  | _, _ => false

def JValue.beqList : List JValue → List JValue → Bool
  | [], [] => true
  | x :: xs, y :: ys => JValue.beq x y && JValue.beqList xs ys
  | _, _ => false

def JValue.beqObj : List (String × JValue) → List (String × JValue) → Bool
  | [], [] => true
  | (k1, v1) :: xs, (k2, v2) :: ys => k1 == k2 && JValue.beq v1 v2 && JValue.beqObj xs ys
  | _, _ => false

end

mutual

theorem JValue.beq_iff : ∀ (a b : JValue), JValue.beq a b = true ↔ a = b
  | .null, .null => by simp [JValue.beq]
  | .bool _, .bool _ => by simp [JValue.beq]
  | .num _, .num _ => by simp [JValue.beq]
  | .str _, .str _ => by simp [JValue.beq]
  | .arr a, .arr b => by simp [JValue.beq, JValue.beqList_iff a b]
  | .obj a, .obj b => by simp [JValue.beq, JValue.beqObj_iff a b]
  | .null, .bool _ | .null, .num _ | .null, .str _ | .null, .arr _ | .null, .obj _
  | .bool _, .null | .bool _, .num _ | .bool _, .str _ | .bool _, .arr _ | .bool _, .obj _
  | .num _, .null | .num _, .bool _ | .num _, .str _ | .num _, .arr _ | .num _, .obj _
  | .str _, .null | .str _, .bool _ | .str _, .num _ | .str _, .arr _ | .str _, .obj _
  | .arr _, .null | .arr _, .bool _ | .arr _, .num _ | .arr _, .str _ | .arr _, .obj _
  | .obj _, .null | .obj _, .bool _ | .obj _, .num _ | .obj _, .str _ | .obj _, .arr _ => by
      simp [JValue.beq]

theorem JValue.beqList_iff : ∀ (a b : List JValue), JValue.beqList a b = true ↔ a = b
  | [], [] => by simp [JValue.beqList]
  | [], _ :: _ => by simp [JValue.beqList]
  | _ :: _, [] => by simp [JValue.beqList]
  | x :: xs, y :: ys => by
      simp [JValue.beqList, JValue.beq_iff x y, JValue.beqList_iff xs ys]

theorem JValue.beqObj_iff : ∀ (a b : List (String × JValue)), JValue.beqObj a b = true ↔ a = b
  | [], [] => by simp [JValue.beqObj]
  | [], _ :: _ => by simp [JValue.beqObj]
  | _ :: _, [] => by simp [JValue.beqObj]
  | (_, v1) :: xs, (_, v2) :: ys => by
      simp [JValue.beqObj, JValue.beq_iff v1 v2, JValue.beqObj_iff xs ys, and_assoc]

end

instance : DecidableEq JValue := fun a b =>
  if h : JValue.beq a b = true then .isTrue ((JValue.beq_iff a b).mp h)
  else .isFalse (fun he => h ((JValue.beq_iff a b).mpr he))

/-- Association list standing in for BTreeMap with String keys: entries kept in
strictly increasing key order, mirroring the map iteration order. -/
abbrev AList (β : Type) := List (String × β)

/-- Lookup by key (BTreeMap::get). -/
def alLookup {β : Type} : AList β → String → Option β
  | [], _ => none
  | (k, v) :: rest, key => if k == key then some v else alLookup rest key

/-- Kernel-computable decidability for the string order used by the sorted
maps (the default instance iterates over byte positions and does not reduce
definitionally). -/
instance (priority := 2000) decLtStr (s t : String) : Decidable (s < t) :=
  decidable_of_iff (s.toList < t.toList) String.lt_iff_toList_lt.symm

/-- Insert replacing an existing key, at the key-sorted position
(BTreeMap::insert). -/
def alInsert {β : Type} : AList β → String → β → AList β
  | [], key, val => [(key, val)]
  | (k, v) :: rest, key, val =>
    if key < k then (key, val) :: (k, v) :: rest
    else if key == k then (key, val) :: rest
    else (k, v) :: alInsert rest key val

/-- Remove a key (BTreeMap::remove, result only). -/
def alRemove {β : Type} (l : AList β) (key : String) : AList β :=
  l.filter (fun e => !(e.1 == key))

/-- Sorted-set insert for BTreeSet of String. -/
def setInsertStr : List String → String → List String
  | [], key => [key]
  | k :: rest, key =>
    if key < k then key :: k :: rest
    else if key == k then k :: rest
    else k :: setInsertStr rest key

/-- Extend a sorted string set with a list of elements (BTreeSet::extend). -/
def strSetUnion (s : List String) (xs : List String) : List String :=
  xs.foldl setInsertStr s

/-- One JSON object: a map from column name to value (data_model::Row). -/
abbrev Row := AList JValue

/-- Ordered rows (data_model::TableData). -/
abbrev TableData := List Row

def rowGet (r : Row) (k : String) : Option JValue := alLookup r k

def rowInsert (r : Row) (k : String) (v : JValue) : Row := alInsert r k v

def rowRemove (r : Row) (k : String) : Row := alRemove r k

/-- Row::entry(k).or_insert(v). -/
def rowEntryOrInsert (r : Row) (k : String) (v : JValue) : Row :=
  if (rowGet r k).isSome then r else rowInsert r k v

/-- ASCII whitespace test matching char::is_ascii_whitespace. -/
def isAsciiWsp (c : Char) : Bool :=
  c == ' ' || c == '\t' || c == '\n' || c == '\x0C' || c == '\r'

/-- Whitespace trim modelling str::trim (the inputs the theorems touch only
contain ASCII whitespace). -/
def trimChars (cs : List Char) : List Char :=
  ((cs.dropWhile isAsciiWsp).reverse.dropWhile isAsciiWsp).reverse

def strTrim (s : String) : String := ⟨trimChars s.toList⟩

def asciiLowerChar (c : Char) : Char :=
  if 'A' ≤ c && c ≤ 'Z' then Char.ofNat (c.toNat + 32) else c

def asciiLowerStr (s : String) : String := ⟨s.toList.map asciiLowerChar⟩

/-- str::eq_ignore_ascii_case. -/
def eqIgnoreAsciiCase (s t : String) : Bool :=
  s.toList.map asciiLowerChar == t.toList.map asciiLowerChar

/-- str::contains for substrings, used by filter and search matching. -/
def strContainsSub (hay needle : String) : Bool :=
  decide (List.IsInfix needle.toList hay.toList)

def digitsToNat (ds : List Char) : Nat :=
  ds.foldl (fun a c => a * 10 + (c.toNat - 48)) 0

/-- Signed decimal integer parse mirroring i64/u64 FromStr before the range
check: optional sign, then one or more ASCII digits, nothing else. -/
def parseSignedDec (allowMinus : Bool) (cs : List Char) : Option Int :=
  match cs with
  | '+' :: ds =>
      if ds ≠ [] ∧ ds.all Char.isDigit then some (digitsToNat ds) else none
  | '-' :: ds =>
      if allowMinus ∧ ds ≠ [] ∧ ds.all Char.isDigit then some (-(digitsToNat ds : Int))
      else none
  | ds => if ds ≠ [] ∧ ds.all Char.isDigit then some (digitsToNat ds) else none

/-- str::parse::<i64>. -/
def parseI64Str (s : String) : Option Int :=
  (parseSignedDec true s.toList).filter (fun v => -(2 ^ 63) ≤ v ∧ v < 2 ^ 63)

/-- str::parse::<u64>. -/
def parseU64Str (s : String) : Option Nat :=
  ((parseSignedDec false s.toList).filter (fun v => 0 ≤ v ∧ v < 2 ^ 64)).map Int.toNat

/-- Finite-decimal fragment of str::parse::<f64>: optional sign, digits with at
most one dot, optional decimal exponent.  Values are exact rationals; the
special spellings inf/NaN are treated as unparseable (the claims never feed
them through this path). -/
def parseF64Chars (cs : List Char) : Option ℚ :=
  let sgn : ℚ := if cs.head? = some '-' then -1 else 1
  let cs := match cs with
    | '+' :: r => r
    | '-' :: r => r
    | r => r
  let mant := cs.takeWhile (fun c => !(c == 'e' || c == 'E'))
  let expPart := cs.dropWhile (fun c => !(c == 'e' || c == 'E'))
  let ip := mant.takeWhile (fun c => !(c == '.'))
  let fpRaw := mant.dropWhile (fun c => !(c == '.'))
  let fp := fpRaw.drop 1
  if !(ip.all Char.isDigit) || !(fp.all Char.isDigit) || (ip = [] ∧ fp = []) then none
  else
    let base : ℚ := sgn * ((digitsToNat ip : ℚ) + (digitsToNat fp : ℚ) / (10 : ℚ) ^ fp.length)
    match expPart with
    | [] => some base
    | _ :: et =>
      match parseSignedDec true et with
      | some e =>
          if 0 ≤ e then some (base * (10 : ℚ) ^ e.toNat)
          else some (base / (10 : ℚ) ^ (-e).toNat)
      | none => none

def parseF64Str (s : String) : Option ℚ := parseF64Chars s.toList

/-- serde Number::from(i64): negative values become NegInt, others PosInt. -/
def intToJNum (i : Int) : JNum :=
  if 0 ≤ i then .posInt i.toNat else .negInt i

def JNum.asI64 : JNum → Option Int
  | .posInt n => if n ≤ 2 ^ 63 - 1 then some (n : Int) else none
  | .negInt v => some v
  | .float _ => none

def JNum.asU64 : JNum → Option Nat
  | .posInt n => some n
  | .negInt _ => none
  | .float _ => none

/-- Number::as_f64, total in the model (stored floats are finite; integer
payloads are taken exactly rather than rounded to the nearest double). -/
def JNum.toQ : JNum → ℚ
  | .posInt n => n
  | .negInt v => v
  | .float q => q

/-- Display for serde Number (float rendering is a placeholder: the theorems
only ever display integer-valued numbers). -/
def JNum.toStr : JNum → String
  | .posInt n => Nat.repr n
  | .negInt v => Int.repr v
  | .float q => if q.den = 1 then Int.repr q.num ++ ".0" else Int.repr q.num ++ "r" ++ Nat.repr q.den

def hexDigit (n : Nat) : Char :=
  if n < 10 then Char.ofNat (48 + n) else Char.ofNat (87 + n)

/-- JSON string escaping as in serde compact output. -/
def escapeJsonChars : List Char → List Char
  | [] => []
  | c :: rest =>
    (if c == '"' then ['\\', '"']
     else if c == '\\' then ['\\', '\\']
     else if c == '\n' then ['\\', 'n']
     else if c == '\t' then ['\\', 't']
     else if c == '\r' then ['\\', 'r']
     else if c.toNat < 32 then ['\\', 'u', '0', '0', hexDigit (c.toNat / 16), hexDigit (c.toNat % 16)]
     else [c]) ++ escapeJsonChars rest

mutual

/-- Compact JSON serialization (Value::to_string). -/
def JValue.toJsonStr : JValue → String
  | .null => "null"
  | .bool b => if b then "true" else "false"
  | .num n => n.toStr
  | .str s => "\"" ++ (⟨escapeJsonChars s.toList⟩ : String) ++ "\""
  | .arr xs => "[" ++ jsonArrStr xs ++ "]"
  | .obj kvs => "\x7b" ++ jsonObjStr kvs ++ "\x7d"

def jsonArrStr : List JValue → String
  | [] => ""
  | [x] => x.toJsonStr
  | x :: rest => x.toJsonStr ++ "," ++ jsonArrStr rest

def jsonObjStr : List (String × JValue) → String
  | [] => ""
  | [(k, v)] => "\"" ++ (⟨escapeJsonChars k.toList⟩ : String) ++ "\":" ++ v.toJsonStr
  | (k, v) :: rest =>
      "\"" ++ (⟨escapeJsonChars k.toList⟩ : String) ++ "\":" ++ v.toJsonStr ++ "," ++ jsonObjStr rest

end

/-- data_model::display_value. -/
def displayValue : JValue → String
  | .str s => s
  | .num n => n.toStr
  | .bool b => if b then "true" else "false"
  | .null => ""
  | v => v.toJsonStr

end JSheet

namespace JSheet

/-- jsheet::parse_number: trimmed text as i64, else u64, else finite f64. -/
def parseNumberStr (raw : String) : Option JNum :=
  let t := strTrim raw
  if t.toList = [] then none
  else
    match parseI64Str t with
    | some i => some (intToJNum i)
    | none =>
      match parseU64Str t with
      | some u => some (.posInt u)
      | none => (parseF64Str t).map .float

/-- jsheet::parse_bool. -/
def parseBoolStr (raw : String) : Option Bool :=
  let t := strTrim raw
  if eqIgnoreAsciiCase t "true" || t == "1" then some true
  else if eqIgnoreAsciiCase t "false" || t == "0" then some false
  else none

/-- jsheet::value_as_f64. -/
def valueAsF64 : JValue → Option ℚ
  | .num n => some n.toQ
  | .str s => parseF64Str (strTrim s)
  | .bool b => some (if b then 1 else 0)
  | _ => none

/-- jsheet::coerce_number. -/
def coerceNumber (value : JValue) (input : Option String) : Option JNum :=
  match value with
  | .num n => some n
  | .str s => parseNumberStr s
  | .bool b => some (.posInt (if b then 1 else 0))
  | .null => input.bind parseNumberStr
  | _ => none

/-- jsheet::coerce_bool. -/
def coerceBool (value : JValue) (input : Option String) : Option Bool :=
  match value with
  | .bool b => some b
  | .num n => some (decide (n.toQ ≠ 0))
  | .str s => parseBoolStr s
  | .null => input.bind parseBoolStr
  | _ => none

inductive ColumnType where
  | string
  | number
  | bool
  | null
deriving DecidableEq, Repr

structure ColumnConstraint where
  value_type : ColumnType
deriving DecidableEq, Repr

/-- jsheet::coerce_value. -/
def coerceValue (value : JValue) (input : Option String) (ct : ColumnType) : Option JValue :=
  match ct with
  | .string => some (.str (displayValue value))
  | .number => (coerceNumber value input).map .num
  | .bool => (coerceBool value input).map .bool
  | .null =>
    if value = .null
        || (match input with
            | some raw =>
                let t := strTrim raw
                t.toList = [] || eqIgnoreAsciiCase t "null"
            | none => false) then
      some .null
    else none

/-- jsheet::json_number_from_f64; the argument is the f64 result of an
arithmetic op, with none standing for a non-finite double. -/
def jsonNumberFromF64 : Option ℚ → Option JNum
  | none => none
  | some q =>
    if q.den = 1 then
      if -(2 ^ 63) ≤ q.num ∧ q.num ≤ 2 ^ 63 - 1 then some (intToJNum q.num)
      else if 0 ≤ q.num ∧ q.num ≤ 2 ^ 64 - 1 then some (.posInt q.num.toNat)
      else some (.float q)
    else some (.float q)

/-- data_model::parse_cell_input.  The serde-parsed double-quoted branch
supports the basic escapes; unicode escapes make the branch fail and fall
through (no theorem exercises them). -/
def unquoteJsonString (cs : List Char) : Option (List Char) :=
  match cs with
  | [] => some []
  | ['\\'] => none
  | '\\' :: e :: rest =>
    (unquoteJsonString rest).bind (fun tail =>
      if e == 'n' then some ('\n' :: tail)
      else if e == 't' then some ('\t' :: tail)
      else if e == 'r' then some ('\r' :: tail)
      else if e == 'b' then some ('\x08' :: tail)
      else if e == 'f' then some ('\x0C' :: tail)
      else if e == '"' then some ('"' :: tail)
      else if e == '\\' then some ('\\' :: tail)
      else if e == '/' then some ('/' :: tail)
      else none)
  | '"' :: _ => none
  | c :: rest => (unquoteJsonString rest).map (c :: ·)

def parseCellInput (input : String) : JValue :=
  let t := trimChars input.toList
  let ts : String := ⟨t⟩
  if t = [] || eqIgnoreAsciiCase ts "null" then .null
  else if eqIgnoreAsciiCase ts "true" then .bool true
  else if eqIgnoreAsciiCase ts "false" then .bool false
  else
    let quoted :=
      if t.head? = some '"' ∧ t.getLast? = some '"' ∧ 2 ≤ t.length then
        (unquoteJsonString ((t.drop 1).dropLast)).map (fun inner => JValue.str ⟨inner⟩)
      else none
    match quoted with
    | some v => v
    | none =>
      if t.head? = some '\'' ∧ t.getLast? = some '\'' ∧ 2 ≤ t.length then
        .str ⟨(t.drop 1).dropLast⟩
      else
        match parseI64Str ts with
        | some i => .num (intToJNum i)
        | none =>
          match parseU64Str ts with
          | some u => .num (.posInt u)
          | none =>
            match parseF64Str ts with
            | some q => .num (.float q)
            | none => .str ts

/-- data_model::derive_columns: sorted union of all row keys. -/
def deriveColumns (data : TableData) : List String :=
  data.foldl (fun acc row => strSetUnion acc (row.map Prod.fst)) []

/-- data_model::set_cell_value. -/
def setCellValueD (data : TableData) (rowIndex : Nat) (column : String) (value : JValue) :
    Bool × TableData :=
  match data[rowIndex]? with
  | some row => (true, data.set rowIndex (rowInsert row column value))
  | none => (false, data)

/-- data_model::add_row. -/
def addRowD (data : TableData) : TableData :=
  data ++ [(deriveColumns data).foldl (fun r c => rowInsert r c .null) []]

/-- data_model::delete_row. -/
def deleteRowD (data : TableData) (rowIndex : Nat) : Bool × TableData :=
  if rowIndex < data.length then (true, data.eraseIdx rowIndex) else (false, data)

/-- data_model::add_column (the successfully mutated data, or none for false). -/
def addColumnD (data : TableData) (name : String) : Option TableData :=
  let t := strTrim name
  if t.toList = [] then none
  else if data = [] then some [[(t, JValue.null)]]
  else if data.any (fun row => (rowGet row t).isSome) then none
  else some (data.map (fun row => rowInsert row t .null))

/-- data_model::delete_column (the mutated data, or none when no row had the
column). -/
def deleteColumnD (data : TableData) (name : String) : Option TableData :=
  let t := strTrim name
  if data.any (fun row => (rowGet row t).isSome) then
    some (data.map (fun row => rowRemove row t))
  else none

/-- Formula tokens (jsheet::Token). -/
inductive Token where
  | num (q : ℚ)
  | str (s : String)
  | ident (s : String)
  | plus
  | minus
  | star
  | slash
  | lparen
  | rparen
deriving DecidableEq, Repr

/-- Binary operators (jsheet::BinOp). -/
inductive BinOp where
  | add
  | sub
  | mul
  | div
deriving DecidableEq, Repr

/-- Formula AST (jsheet::Expr). -/
inductive FExpr where
  | num (q : ℚ)
  | str (s : String)
  | ident (name : String)
  | neg (e : FExpr)
  | bin (op : BinOp) (l r : FExpr)
deriving DecidableEq, Repr

/-- Lexer::consume_string, after the opening quote: returns the literal and the
rest, or none when the input ends before the closing quote. -/
def lexString (escaped : Bool) (acc : List Char) : List Char → Option (String × List Char)
  | [] => none
  | c :: rest =>
    if escaped then
      let e :=
        if c == 'n' then '\n'
        else if c == 't' then '\t'
        else if c == '"' then '"'
        else if c == '\\' then '\\'
        else c
      lexString false (acc ++ [e]) rest
    else if c == '\\' then lexString true acc rest
    else if c == '"' then some (⟨acc⟩, rest)
    else lexString false (acc ++ [c]) rest

/-- Lexer::tokenize.  Fuel bounds the loop; every iteration consumes at least
one character, so the initial fuel (length + 1) makes the fuel branch
unreachable. -/
def tokenizeGo : Nat → List Char → Except String (List Token)
  | 0, _ => .error "lexer out of fuel"
  | _ + 1, [] => .ok []
  | fuel + 1, c :: cs =>
    if isAsciiWsp c then tokenizeGo fuel cs
    else if c.isDigit || c == '.' then
      let buf := (c :: cs).takeWhile (fun x => x.isDigit || x == '.')
      let rest := (c :: cs).dropWhile (fun x => x.isDigit || x == '.')
      match parseF64Chars buf with
      | some q => (tokenizeGo fuel rest).map (Token.num q :: ·)
      | none => .error "invalid number literal"
    else if c == '"' then
      match lexString false [] cs with
      | some (s, rest) => (tokenizeGo fuel rest).map (Token.str s :: ·)
      | none => .error "unterminated string literal"
    else if c.isAlpha || c == '_' then
      let buf := (c :: cs).takeWhile (fun x => x.isAlphanum || x == '_')
      let rest := (c :: cs).dropWhile (fun x => x.isAlphanum || x == '_')
      (tokenizeGo fuel rest).map (Token.ident ⟨buf⟩ :: ·)
    else if c == '+' then (tokenizeGo fuel cs).map (Token.plus :: ·)
    else if c == '-' then (tokenizeGo fuel cs).map (Token.minus :: ·)
    else if c == '*' then (tokenizeGo fuel cs).map (Token.star :: ·)
    else if c == '/' then (tokenizeGo fuel cs).map (Token.slash :: ·)
    else if c == '(' then (tokenizeGo fuel cs).map (Token.lparen :: ·)
    else if c == ')' then (tokenizeGo fuel cs).map (Token.rparen :: ·)
    else .error ("unexpected token " ++ (⟨[c]⟩ : String))

def tokenize (s : String) : Except String (List Token) :=
  tokenizeGo (s.toList.length + 1) s.toList

/-- Parser::parse_factor, parameterized by the expression entry (for the
parenthesized case) and self-recursive through fuel for unary minus. -/
def parseFactorGo (pExpr : List Token → Except String (FExpr × List Token)) :
    Nat → List Token → Except String (FExpr × List Token)
  | 0, _ => .error "formula too deeply nested"
  | fuel + 1, toks =>
    match toks with
    | .minus :: rest => (parseFactorGo pExpr fuel rest).map (fun p => (.neg p.1, p.2))
    | .num q :: rest => .ok (.num q, rest)
    | .str s :: rest => .ok (.str s, rest)
    | .ident n :: rest => .ok (.ident n, rest)
    | .lparen :: rest =>
      match pExpr rest with
      | .ok (e, .rparen :: r2) => .ok (e, r2)
      | .ok _ => .error "missing closing paren"
      | .error msg => .error msg
    | _ => .error "expected expression"

/-- Loop of Parser::parse_term over * and /. -/
def parseTermLoop (pFactor : List Token → Except String (FExpr × List Token)) :
    Nat → FExpr → List Token → Except String (FExpr × List Token)
  | 0, _, _ => .error "formula too long"
  | fuel + 1, left, toks =>
    match toks with
    | .star :: rest =>
      match pFactor rest with
      | .ok (right, r) => parseTermLoop pFactor fuel (.bin .mul left right) r
      | .error msg => .error msg
    | .slash :: rest =>
      match pFactor rest with
      | .ok (right, r) => parseTermLoop pFactor fuel (.bin .div left right) r
      | .error msg => .error msg
    | _ => .ok (left, toks)

/-- Parser::parse_term. -/
def parseTermGo (pExpr : List Token → Except String (FExpr × List Token)) (fuel : Nat)
    (toks : List Token) : Except String (FExpr × List Token) :=
  match parseFactorGo pExpr fuel toks with
  | .ok (left, rest) => parseTermLoop (parseFactorGo pExpr fuel) fuel left rest
  | .error msg => .error msg

/-- Loop of Parser::parse_expr over + and -. -/
def parseExprLoop (pTerm : List Token → Except String (FExpr × List Token)) :
    Nat → FExpr → List Token → Except String (FExpr × List Token)
  | 0, _, _ => .error "formula too long"
  | fuel + 1, left, toks =>
    match toks with
    | .plus :: rest =>
      match pTerm rest with
      | .ok (right, r) => parseExprLoop pTerm fuel (.bin .add left right) r
      | .error msg => .error msg
    | .minus :: rest =>
      match pTerm rest with
      | .ok (right, r) => parseExprLoop pTerm fuel (.bin .sub left right) r
      | .error msg => .error msg
    | _ => .ok (left, toks)

/-- Parser::parse_expr. -/
def parseExprGo : Nat → List Token → Except String (FExpr × List Token)
  | 0, _ => .error "formula too deeply nested"
  | fuel + 1, toks =>
    match parseTermGo (parseExprGo fuel) fuel toks with
    | .ok (left, rest) => parseExprLoop (parseTermGo (parseExprGo fuel) fuel) fuel left rest
    | .error msg => .error msg

/-- Parser::parse: tokenize, reject the empty token list, parse one expression
and reject trailing tokens.  The fuel is generous enough never to run out on
inputs the development evaluates. -/
def parseFormula (source : String) : Except String FExpr :=
  match tokenize source with
  | .error msg => .error msg
  | .ok toks =>
    if toks.isEmpty then .error "formula is empty"
    else
      match parseExprGo (4 * toks.length + 16) toks with
      | .ok (e, []) => .ok e
      | .ok _ => .error "unexpected trailing tokens"
      | .error msg => .error msg

/-- JSheetMeta::normalize_formula. -/
def normalizeFormula (raw : String) : Option String :=
  let cs := trimChars raw.toList
  let cs := match cs with
    | '=' :: rest => rest.dropWhile isAsciiWsp
    | other => other
  if cs = [] then none else some ⟨cs⟩

/-- JSheetMeta::validate_formula. -/
def validateFormula (formula : String) : Bool :=
  match normalizeFormula formula with
  | none => false
  | some n => (parseFormula n).isOk

end JSheet

namespace JSheet

/-- jsheet::ColumnStyle. -/
structure ColumnStyle where
  color : Option String
  background : Option String
deriving DecidableEq, Repr

inductive SummaryKind where
  | sum
  | avg
  | count
  | min
  | max
deriving DecidableEq, Repr

/-- Conditional formatting entry ({column, rule text, style}); carried by the
sidecar codec, its matching logic is outside the claims. -/
structure ConditionalFormat where
  column : String
  rule : String
  style : ColumnStyle
deriving DecidableEq, Repr

/-- jsheet::JSheetMeta, with the conditional_formats field its callers in
io/jsheet_io.rs construct. -/
structure JSheetMeta where
  columns : AList ColumnConstraint := []
  column_order : List String := []
  row_key : Option String := none
  comment_columns : List String := []
  comment_rows : List Row := []
  summaries : AList SummaryKind := []
  cell_formulas : List (AList String) := []
  cell_styles : List (AList ColumnStyle) := []
  conditional_formats : List ConditionalFormat := []
deriving DecidableEq, Repr

/-- JSheetMeta::display_columns. -/
def displayColumns (m : JSheetMeta) (data : TableData) : List String :=
  let all := strSetUnion [] (deriveColumns data)
  let all := strSetUnion all (m.columns.map Prod.fst)
  let all := strSetUnion all m.comment_columns
  let all := strSetUnion all (m.summaries.map Prod.fst)
  let all := m.cell_formulas.foldl (fun a row => strSetUnion a (row.map Prod.fst)) all
  let all := m.cell_styles.foldl (fun a row => strSetUnion a (row.map Prod.fst)) all
  if m.column_order = [] then all
  else
    let result := m.column_order.filter (fun c => all.contains c)
    result ++ all.filter (fun c => !(result.contains c))

/-- JSheetMeta::column_type. -/
def columnType (m : JSheetMeta) (column : String) : Option ColumnType :=
  (alLookup m.columns column).map (·.value_type)

/-- JSheetMeta::set_column_type. -/
def setColumnType (m : JSheetMeta) (column : String) (ct : Option ColumnType) : JSheetMeta :=
  match ct with
  | some t => { m with columns := alInsert m.columns column ⟨t⟩ }
  | none => { m with columns := alRemove m.columns column }

/-- JSheetMeta::ensure_row_metadata_len. -/
def ensureRowMetadataLen (m : JSheetMeta) (rowCount : Nat) : JSheetMeta :=
  { m with
    cell_formulas := m.cell_formulas ++ List.replicate (rowCount - m.cell_formulas.length) [],
    cell_styles := m.cell_styles ++ List.replicate (rowCount - m.cell_styles.length) [] }

/-- JSheetMeta::resize_row_metadata. -/
def resizeRowMetadata (m : JSheetMeta) (rowCount : Nat) : JSheetMeta :=
  let m := ensureRowMetadataLen m rowCount
  { m with cell_formulas := m.cell_formulas.take rowCount, cell_styles := m.cell_styles.take rowCount }

/-- JSheetMeta::remove_row_metadata. -/
def removeRowMetadata (m : JSheetMeta) (rowIndex : Nat) : JSheetMeta :=
  { m with
    cell_formulas := if rowIndex < m.cell_formulas.length then m.cell_formulas.eraseIdx rowIndex else m.cell_formulas,
    cell_styles := if rowIndex < m.cell_styles.length then m.cell_styles.eraseIdx rowIndex else m.cell_styles }

/-- JSheetMeta::reorder_row_metadata. -/
def reorderRowMetadata (m : JSheetMeta) (orderedOldIndices : List Nat) : JSheetMeta :=
  { m with
    cell_formulas := orderedOldIndices.map (fun idx => (m.cell_formulas[idx]?).getD []),
    cell_styles := orderedOldIndices.map (fun idx => (m.cell_styles[idx]?).getD []) }

/-- JSheetMeta::formula_for_cell. -/
def formulaForCell (m : JSheetMeta) (rowIndex : Nat) (column : String) : Option String :=
  (m.cell_formulas[rowIndex]?).bind (fun row => alLookup row column)

/-- JSheetMeta::set_formula_for_cell (result replaces the mutation plus the
returned bool). -/
def setFormulaForCell (m : JSheetMeta) (rowIndex : Nat) (column : String) (formula : String) :
    Bool × JSheetMeta :=
  let column := strTrim column
  if column.toList = [] then (false, m)
  else
    match normalizeFormula formula with
    | none => (false, m)
    | some normalized =>
      if !(validateFormula normalized) then (false, m)
      else
        let m := ensureRowMetadataLen m (rowIndex + 1)
        (true,
          { m with
            cell_formulas :=
              m.cell_formulas.set rowIndex (alInsert ((m.cell_formulas[rowIndex]?).getD []) column normalized) })

/-- JSheetMeta::remove_formula_for_cell. -/
def removeFormulaForCell (m : JSheetMeta) (rowIndex : Nat) (column : String) : JSheetMeta :=
  match m.cell_formulas[rowIndex]? with
  | some row => { m with cell_formulas := m.cell_formulas.set rowIndex (alRemove row column) }
  | none => m

/-- JSheetMeta::remove_column_metadata. -/
def removeColumnMetadata (m : JSheetMeta) (column : String) : JSheetMeta :=
  { m with
    columns := alRemove m.columns column,
    comment_columns := m.comment_columns.filter (fun c => !(c == column)),
    comment_rows := m.comment_rows.map (fun row => rowRemove row column),
    summaries := alRemove m.summaries column,
    cell_formulas := m.cell_formulas.map (fun row => alRemove row column),
    cell_styles := m.cell_styles.map (fun row => alRemove row column) }

/-- JSheetMeta::coerce_value_for_column. -/
def coerceValueForColumn (m : JSheetMeta) (column : String) (value : JValue)
    (input : Option String) : Option JValue :=
  match columnType m column with
  | some ct => coerceValue value input ct
  | none => some value

/-- jsheet::numeric_binary; op returns none for a non-finite f64 result. -/
def numericBinary (l r : JValue) (op : ℚ → ℚ → Option ℚ) : JValue :=
  match valueAsF64 l with
  | none => .null
  | some a =>
    match valueAsF64 r with
    | none => .null
    | some b => ((jsonNumberFromF64 (op a b)).map JValue.num).getD .null

/-- jsheet::eval_binary.  Division by an exact zero stands for the Rust NAN
result (a non-finite double, hence none). -/
def evalBinary (op : BinOp) (l r : JValue) : JValue :=
  match op with
  | .add =>
    match valueAsF64 l, valueAsF64 r with
    | some a, some b => ((jsonNumberFromF64 (some (a + b))).map JValue.num).getD .null
    | _, _ => .str (displayValue l ++ displayValue r)
  | .sub => numericBinary l r (fun a b => some (a - b))
  | .mul => numericBinary l r (fun a b => some (a * b))
  | .div => numericBinary l r (fun a b => if b = 0 then none else some (a / b))

/-- The evaluator on expressions; the resolver plays identifier resolution and
returns none when it runs out of fuel (jsheet::eval_expr_for_row). -/
def evalExpr (resolve : String → Option (Option JValue)) : FExpr → Option JValue
  | .num q => some (((jsonNumberFromF64 (some q)).map JValue.num).getD .null)
  | .str s => some (.str s)
  | .ident name => (resolve name).map (fun r => r.getD .null)
  | .neg e =>
    (evalExpr resolve e).map (fun v =>
      (((valueAsF64 v).bind (fun n => jsonNumberFromF64 (some (-n)))).map JValue.num).getD .null)
  | .bin op l r =>
    match evalExpr resolve l, evalExpr resolve r with
    | some lv, some rv => some (evalBinary op lv rv)
    | _, _ => none

/-- JSheetMeta::value_for_cell_inner.  The outer Option is the fuel guard
(none = out of fuel, unreachable with the fuel value_for_cell passes, proved in
claim C1); the inner Option is the Rust return value.  A key already on the
stack short-circuits to Rust None before any recursion. -/
def valueForCellInner : Nat → JSheetMeta → Row → Nat → String → List (Nat × String) →
    Option (Option JValue)
  | 0, _, _, _, _, _ => none
  | fuel + 1, m, row, rowIndex, column, stack =>
    match formulaForCell m rowIndex column with
    | some f =>
      if stack.contains (rowIndex, column) then some none
      else
        match parseFormula f with
        | .error _ => some none
        | .ok e =>
          (evalExpr
            (fun name => valueForCellInner fuel m row rowIndex name ((rowIndex, column) :: stack))
            e).map some
    | none => some (rowGet row column)

/-- Fuel that suffices for one value_for_cell call: one more than the number of
formulas stored for the row (each level of recursion pushes a distinct formula
key of this row onto the stack). -/
def cellFuel (m : JSheetMeta) (rowIndex : Nat) : Nat :=
  ((m.cell_formulas[rowIndex]?).getD []).length + 1

/-- JSheetMeta::value_for_cell. -/
def valueForCell (m : JSheetMeta) (row : Row) (rowIndex : Nat) (column : String) :
    Option JValue :=
  (valueForCellInner (cellFuel m rowIndex) m row rowIndex column []).getD none

/-- table_state::type_rank. -/
def typeRank : JValue → Nat
  | .null => 0
  | .bool _ => 1
  | .num _ => 2
  | .str _ => 3
  | .arr _ => 4
  | .obj _ => 5

/-- table_state::compare_numbers: the four integer patterns in source order,
then the floating fallback (idealized as exact rational comparison). -/
def compareNumbers (left right : JNum) : Ordering :=
  match left.asI64, left.asU64, right.asI64, right.asU64 with
  | some a, _, some b, _ => compare a b
  | some a, _, _, some b => if a < 0 then .lt else compare a.toNat b
  | _, some a, some b, _ => if b < 0 then .gt else compare a b.toNat
  | _, some a, _, some b => compare a b
  | _, _, _, _ => compare left.toQ right.toQ

/-- True exactly when compare_numbers reaches its floating-point fallback arm. -/
def usesFloatFallback (left right : JNum) : Bool :=
  match left.asI64, left.asU64, right.asI64, right.asU64 with
  | some _, _, some _, _ => false
  | some _, _, _, some _ => false
  | _, some _, some _, _ => false
  | _, some _, _, some _ => false
  | _, _, _, _ => true

/-- table_state::compare_value_pair. -/
def compareValuePair (left right : JValue) : Ordering :=
  match left, right with
  | .null, .null => .eq
  | .bool a, .bool b => compare a b
  | .num a, .num b => compareNumbers a b
  | .str a, .str b => compare (asciiLowerStr a) (asciiLowerStr b)
  | l, r =>
    (compare (typeRank l) (typeRank r)).then (compare (displayValue l) (displayValue r))

/-- table_state::compare_values. -/
def compareValues (a b : Option JValue) : Ordering :=
  match a, b with
  | none, none => .eq
  | none, some _ => .lt
  | some _, none => .gt
  | some l, some r => compareValuePair l r

end JSheet

namespace JSheet

inductive SortOrder where
  | asc
  | desc
deriving DecidableEq, Repr

structure SortSpec where
  column : String
  order : SortOrder
deriving DecidableEq, Repr

/-- table_state::toggle_sort_order. -/
def toggleSortOrder : SortOrder → SortOrder
  | .asc => .desc
  | .desc => .asc

inductive CellEditKind where
  | value (v : JValue)
  | formula (text : String)
deriving DecidableEq, Repr

structure CellEdit where
  row_index : Nat
  column : String
  kind : CellEditKind
deriving DecidableEq, Repr

/-- table_state::HistoryEntry. -/
structure HistoryEntry where
  data : TableData
  jsheet_meta : JSheetMeta
  sort_spec : Option SortSpec
deriving DecidableEq, Repr

/-- table_state::TableState. -/
structure TableState where
  data : TableData := []
  jsheet_meta : JSheetMeta := {}
  undo_stack : List HistoryEntry := []
  redo_stack : List HistoryEntry := []
  sort_spec : Option SortSpec := none
  filter_column : Option String := none
  filter_query : String := ""
  search_query : String := ""
deriving DecidableEq, Repr

/-- TableState::snapshot. -/
def snapshot (st : TableState) : HistoryEntry :=
  { data := st.data, jsheet_meta := st.jsheet_meta, sort_spec := st.sort_spec }

/-- TableState::push_undo_snapshot. -/
def pushUndoSnapshot (st : TableState) : TableState :=
  { st with undo_stack := snapshot st :: st.undo_stack, redo_stack := [] }

/-- TableState::restore. -/
def restoreEntry (st : TableState) (e : HistoryEntry) : TableState :=
  { st with data := e.data, jsheet_meta := e.jsheet_meta, sort_spec := e.sort_spec }

/-- TableState::undo. -/
def undoStep (st : TableState) : Bool × TableState :=
  match st.undo_stack with
  | [] => (false, st)
  | e :: rest =>
    (true, restoreEntry { st with undo_stack := rest, redo_stack := snapshot st :: st.redo_stack } e)

/-- TableState::redo. -/
def redoStep (st : TableState) : Bool × TableState :=
  match st.redo_stack with
  | [] => (false, st)
  | e :: rest =>
    (true, restoreEntry { st with redo_stack := rest, undo_stack := snapshot st :: st.undo_stack } e)

/-- Tail of TableState::set_cell_value after the coercion gate: reject a
missing row or an unchanged value, otherwise snapshot, drop the sort spec and
write the cell. -/
def applyCoercedCellValue (st : TableState) (rowIndex : Nat) (column : String) (value : JValue) :
    Bool × TableState :=
  match st.data[rowIndex]? with
  | none => (false, st)
  | some row =>
    if rowGet row column = some value then (false, st)
    else
      let st := pushUndoSnapshot st
      let st := { st with sort_spec := none }
      let (ok, data) := setCellValueD st.data rowIndex column value
      (ok, { st with data := data })

/-- TableState::set_cell_value. -/
def setCellValue (st : TableState) (rowIndex : Nat) (column : String) (value : JValue) :
    Bool × TableState :=
  match coerceValueForColumn st.jsheet_meta column value none with
  | none => (false, st)
  | some value => applyCoercedCellValue st rowIndex column value

/-- TableState::set_cell_from_input. -/
def setCellFromInput (st : TableState) (rowIndex : Nat) (column : String) (input : String) :
    Bool × TableState :=
  let parsed := parseCellInput input
  match coerceValueForColumn st.jsheet_meta column parsed (some input) with
  | none => (false, st)
  | some value => setCellValue st rowIndex column value

/-- TableState::cell_formula. -/
def cellFormula (st : TableState) (rowIndex : Nat) (column : String) : Option String :=
  formulaForCell st.jsheet_meta rowIndex column

/-- TableState::set_cell_formula. -/
def setCellFormula (st : TableState) (rowIndex : Nat) (column : String) (formula : String) :
    Bool × TableState :=
  match normalizeFormula formula with
  | none => (false, st)
  | some normalized =>
    if cellFormula st rowIndex column = some normalized then (false, st)
    else
      let (ok, meta) := setFormulaForCell st.jsheet_meta rowIndex column normalized
      (ok, { st with jsheet_meta := meta })

/-- TableState::cell_value. -/
def cellValue (st : TableState) (rowIndex : Nat) (column : String) : Option JValue :=
  (st.data[rowIndex]?).bind (fun row => valueForCell st.jsheet_meta row rowIndex column)

/-- TableState::cell_display_value. -/
def cellDisplayValue (st : TableState) (rowIndex : Nat) (column : String) : String :=
  ((cellValue st rowIndex column).map displayValue).getD ""

/-- TableState::add_row. -/
def addRow (st : TableState) : Bool × TableState :=
  let st := pushUndoSnapshot st
  let st := { st with sort_spec := none }
  let data := addRowD st.data
  let cols := displayColumns st.jsheet_meta data
  let lastIdx := data.length - 1
  let data :=
    match data[lastIdx]? with
    | some lastRow => data.set lastIdx (cols.foldl (fun r c => rowEntryOrInsert r c .null) lastRow)
    | none => data
  (true, { st with data := data, jsheet_meta := resizeRowMetadata st.jsheet_meta data.length })

/-- TableState::delete_row. -/
def deleteRow (st : TableState) (rowIndex : Nat) : Bool × TableState :=
  if st.data.length ≤ rowIndex then (false, st)
  else
    let st := pushUndoSnapshot st
    let st := { st with sort_spec := none }
    let (deleted, data) := deleteRowD st.data rowIndex
    if deleted then
      (true, { st with data := data, jsheet_meta := removeRowMetadata st.jsheet_meta rowIndex })
    else (deleted, { st with data := data })

/-- TableState::add_column. -/
def addColumn (st : TableState) (name : String) : Bool × TableState :=
  match addColumnD st.data name with
  | none => (false, st)
  | some next =>
    let st := pushUndoSnapshot st
    let st := { st with sort_spec := none }
    (true, { st with data := next })

/-- TableState::clear_filter. -/
def clearFilter (st : TableState) : TableState :=
  { st with filter_column := none, filter_query := "" }

/-- TableState::delete_column. -/
def deleteColumn (st : TableState) (name : String) : Bool × TableState :=
  let trimmed := strTrim name
  match deleteColumnD st.data trimmed with
  | none => (false, st)
  | some next =>
    let st := pushUndoSnapshot st
    let st := { st with sort_spec := none }
    let st := { st with jsheet_meta := removeColumnMetadata st.jsheet_meta trimmed }
    let st := if st.filter_column = some trimmed then clearFilter st else st
    (true, { st with data := next })

/-- Stable insertion: x goes after every element y with le y x.  Together with
the fold below this models the stable ascending sort_by of the Rust standard
library (any two stable sorts driven by the same comparator agree). -/
def stInsert (le : α → α → Bool) (x : α) : List α → List α
  | [] => [x]
  | y :: ys => if le y x then y :: stInsert le x ys else x :: y :: ys

/-- Vec::sort_by with an Ordering comparator (ascending, stable). -/
def stableSortBy (cmp : α → α → Ordering) (l : List α) : List α :=
  l.foldl (fun acc x => stInsert (fun a b => !(cmp a b == .gt)) x acc) []

/-- TableState::sort_by_column_toggle. -/
def sortByColumnToggle (st : TableState) (column : String) : Bool × TableState :=
  let nextOrder :=
    match st.sort_spec with
    | some spec => if spec.column = column then toggleSortOrder spec.order else .asc
    | none => .asc
  let meta := st.jsheet_meta
  let valueAt := fun idx => (st.data[idx]?).bind (fun row => valueForCell meta row idx column)
  let order := stableSortBy (fun li ri => compareValues (valueAt li) (valueAt ri))
    (List.range st.data.length)
  let order := if nextOrder = .desc then order.reverse else order
  let sorted : TableData := order.filterMap (fun idx => st.data[idx]?)
  let nextSpec := some { column := column, order := nextOrder }
  if sorted = st.data ∧ nextSpec = st.sort_spec then (false, st)
  else
    let st := pushUndoSnapshot st
    (true,
      { st with
        data := sorted,
        jsheet_meta := reorderRowMetadata st.jsheet_meta order,
        sort_spec := nextSpec })

/-- Body of the per-edit loop of TableState::apply_cell_edits, acting on the
working copies. -/
def applyOneEdit (acc : TableData × JSheetMeta × Nat) (edit : CellEdit) :
    TableData × JSheetMeta × Nat :=
  let (nextData, nextMeta, changed) := acc
  let column := strTrim edit.column
  if column.toList = [] then (nextData, nextMeta, changed)
  else
    match edit.kind with
    | .formula formula =>
      if nextData.length ≤ edit.row_index then (nextData, nextMeta, changed)
      else
        match normalizeFormula formula with
        | none => (nextData, nextMeta, changed)
        | some normalized =>
          if formulaForCell nextMeta edit.row_index column = some normalized then
            (nextData, nextMeta, changed)
          else
            let (ok, meta) := setFormulaForCell nextMeta edit.row_index column normalized
            if ok then (nextData, meta, changed + 1) else (nextData, meta, changed)
    | .value value =>
      match nextData[edit.row_index]? with
      | none => (nextData, nextMeta, changed)
      | some row =>
        match coerceValueForColumn nextMeta column value none with
        | none => (nextData, nextMeta, changed)
        | some coerced =>
          let hadFormula := (formulaForCell nextMeta edit.row_index column).isSome
          if rowGet row column = some coerced ∧ !hadFormula then (nextData, nextMeta, changed)
          else
            (nextData.set edit.row_index (rowInsert row column coerced),
             removeFormulaForCell nextMeta edit.row_index column,
             changed + 1)

/-- TableState::apply_cell_edits. -/
def applyCellEdits (st : TableState) (edits : List CellEdit) : Nat × TableState :=
  if edits = [] then (0, st)
  else
    let (nextData, nextMeta, changed) :=
      edits.foldl applyOneEdit (st.data, st.jsheet_meta, 0)
    if changed = 0 then (0, st)
    else
      let st := pushUndoSnapshot st
      let st := { st with sort_spec := none }
      (changed, { st with data := nextData, jsheet_meta := nextMeta })

/-- One history-tracked mutating operation of TableState (the operations whose
success pushes an undo snapshot). -/
inductive Op where
  | setCellValue (rowIndex : Nat) (column : String) (value : JValue)
  | setCellFromInput (rowIndex : Nat) (column : String) (input : String)
  | addRow
  | deleteRow (rowIndex : Nat)
  | addColumn (name : String)
  | deleteColumn (name : String)
  | sortByColumnToggle (column : String)
  | applyCellEdits (edits : List CellEdit)
deriving DecidableEq, Repr

/-- Run one operation; the Bool is its success (for apply_cell_edits: a
positive change count). -/
def runOp (op : Op) (st : TableState) : Bool × TableState :=
  match op with
  | .setCellValue r c v => setCellValue st r c v
  | .setCellFromInput r c i => setCellFromInput st r c i
  | .addRow => addRow st
  | .deleteRow r => deleteRow st r
  | .addColumn n => addColumn st n
  | .deleteColumn n => deleteColumn st n
  | .sortByColumnToggle c => sortByColumnToggle st c
  | .applyCellEdits es =>
    let (n, st) := applyCellEdits st es
    (decide (0 < n), st)

def runOps (ops : List Op) (st : TableState) : TableState :=
  ops.foldl (fun s op => (runOp op s).2) st

/-- Every operation in the sequence reports success when run in order. -/
def allSucceed : List Op → TableState → Bool
  | [], _ => true
  | op :: rest, st => (runOp op st).1 && allSucceed rest (runOp op st).2

def undoN (n : Nat) (st : TableState) : TableState :=
  match n with
  | 0 => st
  | k + 1 => undoN k (undoStep st).2

/-- The portion of the session state captured by history snapshots. -/
def core (st : TableState) : TableData × JSheetMeta × Option SortSpec :=
  (st.data, st.jsheet_meta, st.sort_spec)

end JSheet

namespace JSheet

/-- jsheet_io::value_to_key_string. -/
def valueToKeyString : JValue → String
  | .str s => s
  | .num n => n.toStr
  | .bool b => if b then "true" else "false"
  | v => v.toJsonStr

/-- jsheet_io::JSheetFile (on-disk shape of the sidecar). -/
structure JSheetFile where
  columns : AList ColumnConstraint := []
  column_order : List String := []
  row_key : Option String := none
  comment_columns : List String := []
  summaries : AList SummaryKind := []
  keyed_cell_formulas : AList (AList String) := []
  keyed_cell_styles : AList (AList ColumnStyle) := []
  keyed_comment_rows : AList Row := []
  cell_formulas : List (AList String) := []
  cell_styles : List (AList ColumnStyle) := []
  comment_rows : List Row := []
  conditional_formats : List ConditionalFormat := []
deriving DecidableEq, Repr

/-- The key-to-current-row-index table into_meta builds from the live data
(enumerate + filter_map + collect into a BTreeMap, later rows overwriting an
equal key string). -/
def keyToIndexGo (key : String) : Nat → List Row → AList Nat → AList Nat
  | _, [], acc => acc
  | idx, row :: rest, acc =>
    match rowGet row key with
    | some v => keyToIndexGo key (idx + 1) rest (alInsert acc (valueToKeyString v) idx)
    | none => keyToIndexGo key (idx + 1) rest acc

def keyToIndex (key : String) (data : List Row) : AList Nat :=
  keyToIndexGo key 0 data []

/-- One of the three identical rehydration loops of into_meta: walk the keyed
map in iteration order and place each entry at the current index of its key
(entries whose key is absent from the index table are dropped). -/
def keyedToIndexedGo {α : Type} (kti : AList Nat) : List α → AList α → List α
  | arr, [] => arr
  | arr, (k, v) :: rest =>
    keyedToIndexedGo kti
      (match alLookup kti k with
       | some idx => arr.set idx v
       | none => arr)
      rest

def keyedToIndexed {α : Type} (kti : AList Nat) (rowCount : Nat) (entries : AList α)
    (empty : α) : List α :=
  keyedToIndexedGo kti (List.replicate rowCount empty) entries

/-- JSheetFile::into_meta. -/
def intoMeta (file : JSheetFile) (data : List Row) : JSheetMeta :=
  let rowCount := data.length
  let (formulas, styles, comments) :=
    match file.row_key with
    | some key =>
      let kti := keyToIndex key data
      (keyedToIndexed kti rowCount file.keyed_cell_formulas [],
       keyedToIndexed kti rowCount file.keyed_cell_styles [],
       keyedToIndexed kti rowCount file.keyed_comment_rows [])
    | none => (file.cell_formulas, file.cell_styles, file.comment_rows)
  { columns := file.columns,
    column_order := file.column_order,
    row_key := file.row_key,
    comment_columns := file.comment_columns,
    comment_rows := comments,
    summaries := file.summaries,
    cell_formulas := formulas,
    cell_styles := styles,
    conditional_formats := file.conditional_formats }

/-- The key each data row is stored under by from_meta: the stringified row-key
value, or the positional index as decimal text when the row lacks the key
column. -/
def rowKeyVal (key : String) (idx : Nat) (row : Row) : String :=
  ((rowGet row key).map valueToKeyString).getD (Nat.repr idx)

/-- One component of the keyed-serialization loop of from_meta (the Rust loop
fills the three maps in a single pass over enumerate; the three components are
independent, so each is the same fold restricted to one map). -/
def keyedGo {α : Type} (getAt : Nat → Option α) (isEmp : α → Bool) (key : String) :
    Nat → List Row → AList α → AList α
  | _, [], acc => acc
  | idx, row :: rest, acc =>
    let acc :=
      match getAt idx with
      | some entry => if isEmp entry then acc else alInsert acc (rowKeyVal key idx row) entry
      | none => acc
    keyedGo getAt isEmp key (idx + 1) rest acc

/-- JSheetFile::from_meta. -/
def fromMeta (meta : JSheetMeta) (data : List Row) : JSheetFile :=
  let (kf, ks, kc, vf, vs, vc) :=
    match meta.row_key with
    | some key =>
      (keyedGo (fun i => meta.cell_formulas[i]?) List.isEmpty key 0 data [],
       keyedGo (fun i => meta.cell_styles[i]?) List.isEmpty key 0 data [],
       keyedGo (fun i => meta.comment_rows[i]?) List.isEmpty key 0 data [],
       ([] : List (AList String)), ([] : List (AList ColumnStyle)), ([] : List Row))
    | none => ([], [], [], meta.cell_formulas, meta.cell_styles, meta.comment_rows)
  { columns := meta.columns,
    column_order := meta.column_order,
    row_key := meta.row_key,
    comment_columns := meta.comment_columns,
    summaries := meta.summaries,
    keyed_cell_formulas := kf,
    keyed_cell_styles := ks,
    keyed_comment_rows := kc,
    cell_formulas := vf,
    cell_styles := vs,
    comment_rows := vc,
    conditional_formats := meta.conditional_formats }

/-- Modelled from the spec: the ValidationRule record referenced by
table_state.rs and the repository tests.  Its implementation lives in a
revision of state/jsheet.rs that is not part of src/ (the src copy predates
the validation feature), so the type follows spec section 4.2: optional
inclusive numeric bounds and an optional enumeration of admissible strings. -/
structure ValidationRule where
  min : Option ℚ := none
  max : Option ℚ := none
  enum_values : Option (List String) := none
deriving DecidableEq, Repr

/-- Modelled from the spec: the validation gate.  Null is always accepted;
min and max bound a numeric value inclusively; enum_values require
case-insensitive membership of the display text. -/
def validateRule (r : ValidationRule) (v : JValue) : Bool :=
  if v = .null then true
  else
    (match r.enum_values with
     | some xs => xs.any (fun s => eqIgnoreAsciiCase s (displayValue v))
     | none => true)
    &&
    (match valueAsF64 v with
     | some q =>
       (match r.min with | some m => decide (m ≤ q) | none => true)
       && (match r.max with | some m => decide (q ≤ m) | none => true)
     | none => true)

/-- Modelled from the spec: set_cell_value with the validation rules as the
second gate after type coercion (both gates must pass before the mutation is
applied); rules are the per-column validation map of the missing JSheetMeta
revision. -/
def setCellValueWithValidation (rules : AList ValidationRule) (st : TableState)
    (rowIndex : Nat) (column : String) (value : JValue) : Bool × TableState :=
  match coerceValueForColumn st.jsheet_meta column value none with
  | none => (false, st)
  | some value =>
    match alLookup rules column with
    | some rule =>
      if validateRule rule value then applyCoercedCellValue st rowIndex column value
      else (false, st)
    | none => applyCoercedCellValue st rowIndex column value

/-- Modelled from the spec: set_cell_from_input on top of the validated
setter. -/
def setCellFromInputWithValidation (rules : AList ValidationRule) (st : TableState)
    (rowIndex : Nat) (column : String) (input : String) : Bool × TableState :=
  let parsed := parseCellInput input
  match coerceValueForColumn st.jsheet_meta column parsed (some input) with
  | none => (false, st)
  | some value => setCellValueWithValidation rules st rowIndex column value

end JSheet

namespace JSheet

/-! Helper lemmas about lookups and counting, shared by several claims. -/

theorem alLookup_mem {β : Type} {k : String} {v : β} :
    ∀ {l : AList β}, alLookup l k = some v → (k, v) ∈ l := by
  intro l
  induction l with
  | nil => intro h; simp [alLookup] at h
  | cons e rest ih =>
    intro h
    obtain ⟨k0, v0⟩ := e
    by_cases he : k0 = k
    · subst he
      simp [alLookup] at h
      subst h
      exact List.mem_cons_self _ _
    · simp [alLookup, he] at h
      exact List.mem_cons_of_mem _ (ih h)

theorem countP_lt_of_mem {α : Type} {p q : α → Bool} :
    ∀ {l : List α} {x : α}, x ∈ l → p x = false → q x = true →
      (∀ a, p a = true → q a = true) → l.countP p < l.countP q := by
  intro l
  induction l with
  | nil => intro x hx; simp at hx
  | cons y ys ih =>
    intro x hx hpx hqx himp
    have hmono : ys.countP p ≤ ys.countP q := by
      apply List.countP_mono_left
      intro a _ ha
      exact himp a ha
    rcases List.mem_cons.mp hx with rfl | hmem
    · rw [List.countP_cons_of_neg _ _ (by simp [hpx]), List.countP_cons_of_pos _ _ hqx]
      exact Nat.lt_succ_of_le hmono
    · by_cases hpy : p y = true
      · rw [List.countP_cons_of_pos _ _ hpy, List.countP_cons_of_pos _ _ (himp y hpy)]
        exact Nat.succ_lt_succ (ih hmem hpx hqx himp)
      · rw [List.countP_cons_of_neg _ _ (by simpa using hpy)]
        calc ys.countP p < ys.countP q := ih hmem hpx hqx himp
          _ ≤ (y :: ys).countP q := by
              by_cases hqy : q y = true
              · rw [List.countP_cons_of_pos _ _ hqy]; omega
              · rw [List.countP_cons_of_neg _ _ (by simpa using hqy)]

/-- Formula entries of the row not yet on the resolution stack: the measure
that shrinks at each level of value_for_cell_inner recursion. -/
def freeCount (m : JSheetMeta) (ri : Nat) (stack : List (Nat × String)) : Nat :=
  ((m.cell_formulas[ri]?).getD []).countP (fun e => !(stack.contains (ri, e.1)))

theorem evalExpr_ne_none {resolve : String → Option (Option JValue)}
    (h : ∀ name, resolve name ≠ none) : ∀ e, evalExpr resolve e ≠ none := by
  intro e
  induction e with
  | num q => simp [evalExpr]
  | str s => simp [evalExpr]
  | ident n =>
    cases hr : resolve n with
    | none => exact absurd hr (h n)
    | some r => simp [evalExpr, hr]
  | neg e ih =>
    cases he : evalExpr resolve e with
    | none => exact absurd he ih
    | some v => simp [evalExpr, he]
  | bin op l r ihl ihr =>
    cases hl : evalExpr resolve l with
    | none => exact absurd hl ihl
    | some lv =>
      cases hr : evalExpr resolve r with
      | none => exact absurd hr ihr
      | some rv => simp [evalExpr, hl, hr]

theorem valueForCellInner_ne_none :
    ∀ (fuel : Nat) (m : JSheetMeta) (row : Row) (ri : Nat) (col : String)
      (stack : List (Nat × String)), freeCount m ri stack < fuel →
      valueForCellInner fuel m row ri col stack ≠ none := by
  intro fuel
  induction fuel with
  | zero => intro _ _ _ _ _ h; omega
  | succ n ih =>
    intro m row ri col stack hlt
    cases hf : formulaForCell m ri col with
    | none => simp [valueForCellInner, hf]
    | some f =>
      by_cases hs : stack.contains (ri, col) = true
      · have hs' : (ri, col) ∈ stack := by simpa using hs
        simp [valueForCellInner, hf, hs']
      · have hs' : (ri, col) ∉ stack := by simpa using hs
        cases hp : parseFormula f with
        | error msg => simp [valueForCellInner, hf, hs', hp]
        | ok e =>
          have hres : ∀ name,
              valueForCellInner n m row ri name ((ri, col) :: stack) ≠ none := by
            intro name
            apply ih
            have hmem : (col, f) ∈ (m.cell_formulas[ri]?).getD [] := by
              unfold formulaForCell at hf
              cases hrow : m.cell_formulas[ri]? with
              | none => rw [hrow] at hf; simp at hf
              | some frow =>
                rw [hrow] at hf
                simp at hf
                simpa [hrow] using alLookup_mem hf
            have hdec : freeCount m ri ((ri, col) :: stack) < freeCount m ri stack := by
              apply countP_lt_of_mem hmem
              · simp
              · simpa using hs
              · intro a ha
                simp at ha ⊢
                tauto
            omega
          have heval := evalExpr_ne_none hres e
          simp [valueForCellInner, hf, hs', hp]
          cases hv : evalExpr
              (fun name => valueForCellInner n m row ri name ((ri, col) :: stack)) e with
          | none => exact absurd hv heval
          | some v => simp [hv]

/-- Two-column cyclic fixture: the formula of column A is the bare identifier
B and vice versa, on row 0. -/
def cycMeta : JSheetMeta := { cell_formulas := [[("A", "B"), ("B", "A")]] }

def cycRow : Row := [("A", .num (.posInt 1)), ("B", .num (.posInt 2))]

/-- C1: formula evaluation terminates for every formula graph: value_for_cell
hands its inner loop enough fuel that the out-of-fuel branch is unreachable
(first conjunct, for every metadata, row and column); a (row, column) key
already on the active resolution stack is not recursed into but yields the
Rust None, which identifier resolution turns into Null (second conjunct); and
on the concrete two-column cycle A -> B -> A both cells resolve to Null
(third conjunct). -/
theorem c1_cycle_guard_terminates :
    (∀ (m : JSheetMeta) (row : Row) (ri : Nat) (col : String),
      valueForCellInner (cellFuel m ri) m row ri col [] ≠ none)
    ∧ (∀ (fuel : Nat) (m : JSheetMeta) (row : Row) (ri : Nat) (col : String)
        (stack : List (Nat × String)) (f : String), formulaForCell m ri col = some f →
        stack.contains (ri, col) = true →
        valueForCellInner (fuel + 1) m row ri col stack = some none)
    ∧ (valueForCell cycMeta cycRow 0 "A" = some .null
       ∧ valueForCell cycMeta cycRow 0 "B" = some .null) := by
  refine ⟨?_, ?_, by decide, by decide⟩
  · intro m row ri col
    apply valueForCellInner_ne_none
    unfold freeCount cellFuel
    have : ∀ l : List (String × String),
        l.countP (fun e => !(([] : List (Nat × String)).contains (ri, e.1))) = l.length := by
      intro l
      simp [List.countP_eq_length]
    rw [this]
    omega
  · intro fuel m row ri col stack f hf hs
    have hs' : (ri, col) ∈ stack := by simpa using hs
    simp [valueForCellInner, hf, hs']

/-- Closed instantiation of the quantified conjuncts of C1. -/
theorem c1_cycle_guard_terminates_witness :
    valueForCellInner (cellFuel cycMeta 0) cycMeta cycRow 0 "A" [] ≠ none
    ∧ valueForCellInner 1 cycMeta cycRow 0 "A" [(0, "A")] = some none :=
  ⟨c1_cycle_guard_terminates.1 cycMeta cycRow 0 "A",
   c1_cycle_guard_terminates.2.1 0 cycMeta cycRow 0 "A" [(0, "A")] "B" (by decide) (by decide)⟩

end JSheet

namespace JSheet

theorem alLookup_alInsert_self {β : Type} : ∀ (l : AList β) (k : String) (v : β),
    alLookup (alInsert l k v) k = some v := by
  intro l
  induction l with
  | nil => intro k v; simp [alInsert, alLookup]
  | cons e rest ih =>
    intro k v
    obtain ⟨k0, v0⟩ := e
    by_cases hlt : k < k0
    · simp [alInsert, hlt, alLookup]
    · by_cases he : k = k0
      · simp [alInsert, hlt, he, alLookup]
      · have hbe : (k == k0) = false := by simp [he]
        have hbe2 : (k0 == k) = false := by simp; exact fun h => he h.symm
        simp [alInsert, hlt, hbe, alLookup, hbe2, ih]

theorem alLookup_alInsert_ne {β : Type} {k k' : String} (hne : k' ≠ k) :
    ∀ (l : AList β) (v : β), alLookup (alInsert l k v) k' = alLookup l k' := by
  have hkk : (k == k') = false := by simp; exact fun h => hne h.symm
  intro l
  induction l with
  | nil => intro v; simp [alInsert, alLookup, hkk]
  | cons e rest ih =>
    intro v
    obtain ⟨k0, v0⟩ := e
    by_cases hlt : k < k0
    · simp [alInsert, hlt, alLookup, hkk]
    · by_cases he : k = k0
      · subst he
        simp [alInsert, hlt, alLookup, hkk]
      · have hbe : (k == k0) = false := by simp [he]
        simp [alInsert, hlt, hbe, alLookup, ih]

/-- C6 fixture: one cell whose formula is the literal division 1/0. -/
def divMeta : JSheetMeta := { cell_formulas := [[("c", "1/0")]] }

theorem tokenize_one_div_zero : tokenize "1/0" = .ok [.num 1, .slash, .num 0] := by
  simp [tokenize, tokenizeGo, parseF64Chars, isAsciiWsp, digitsToNat, Except.map]

theorem parse_one_div_zero : parseFormula "1/0" = .ok (.bin .div (.num 1) (.num 0)) := by
  simp [parseFormula, tokenize_one_div_zero, parseExprGo, parseTermGo, parseFactorGo,
    parseTermLoop, parseExprLoop]

/-- C6: a division whose right operand coerces to numeric zero evaluates to
Null for every left operand (the NAN produced by the zero-divisor guard is
non-finite, so json_number_from_f64 rejects it), and in particular the formula
1/0 resolves to Null. -/
theorem c6_division_by_zero_yields_null :
    (∀ l r : JValue, valueAsF64 r = some 0 → evalBinary .div l r = .null)
    ∧ valueForCell divMeta [] 0 "c" = some .null := by
  constructor
  · intro l r hr
    unfold evalBinary numericBinary
    cases hl : valueAsF64 l with
    | none => simp
    | some a => simp [hr, jsonNumberFromF64]
  · simp [valueForCell, cellFuel, divMeta, valueForCellInner, formulaForCell, alLookup,
      parse_one_div_zero, evalExpr, evalBinary, numericBinary, valueAsF64, jsonNumberFromF64,
      JNum.toQ, intToJNum, rowGet]

/-- Closed instantiation of the quantified conjunct of C6. -/
theorem c6_division_by_zero_yields_null_witness :
    evalBinary .div (.num (.posInt 1)) (.num (.posInt 0)) = .null :=
  c6_division_by_zero_yields_null.1 (.num (.posInt 1)) (.num (.posInt 0)) (by decide)

/-- Rows holding 2^53 and 2^53 + 1, the adjacent integers a double cannot
distinguish. -/
def rowBig8 : Row := [("n", .num (.posInt 9007199254740992))]

def rowBig9 : Row := [("n", .num (.posInt 9007199254740993))]

/-- C8 counterexample: the claim says the comparator falls back to
floating-point comparison only when neither side fits as an integer, but
comparing PosInt 1 (which fits) against a stored float already takes the
fallback arm. -/
theorem c8_counterexample_fallback_one_side :
    usesFloatFallback (.posInt 1) (.float (1 / 2)) = true
    ∧ (JNum.posInt 1).asI64 = some 1 := by
  constructor <;> decide

/-- C8 (amended): whenever both numbers fit as 64-bit integers via as_i64 the
comparator is the exact integer comparison; the floating fallback arm is
reached only when at least one side fits neither as i64 nor as u64; and a
table holding 2^53 and 2^53 + 1, in either starting order, sorts them into
strictly distinct, correctly ordered positions. -/
theorem c8_big_integer_sort_exact :
    (∀ (a b : JNum) (x y : Int), a.asI64 = some x → b.asI64 = some y →
      compareNumbers a b = compare x y)
    ∧ (∀ a b : JNum, usesFloatFallback a b = true →
        (a.asI64 = none ∧ a.asU64 = none) ∨ (b.asI64 = none ∧ b.asU64 = none))
    ∧ ((sortByColumnToggle { data := [rowBig8, rowBig9] } "n").2.data = [rowBig8, rowBig9]
       ∧ (sortByColumnToggle { data := [rowBig9, rowBig8] } "n").2.data = [rowBig8, rowBig9]) := by
  refine ⟨?_, ?_, by decide, by decide⟩
  · intro a b x y ha hb
    cases hau : a.asU64 <;> cases hbu : b.asU64 <;>
      simp [compareNumbers, ha, hb, hau, hbu]
  · intro a b h
    cases h1 : a.asI64 <;> cases h2 : a.asU64 <;> cases h3 : b.asI64 <;> cases h4 : b.asU64 <;>
      simp [usesFloatFallback, h1, h2, h3, h4] at h ⊢

/-- Closed instantiation of the quantified conjuncts of C8. -/
theorem c8_big_integer_sort_exact_witness :
    compareNumbers (.posInt 9007199254740992) (.posInt 9007199254740993)
      = compare (9007199254740992 : Int) 9007199254740993
    ∧ (((JNum.float (1 / 2)).asI64 = none ∧ (JNum.float (1 / 2)).asU64 = none)
        ∨ ((JNum.posInt 1).asI64 = none ∧ (JNum.posInt 1).asU64 = none)) :=
  ⟨c8_big_integer_sort_exact.1 (.posInt 9007199254740992) (.posInt 9007199254740993)
      9007199254740992 9007199254740993 (by decide) (by decide),
   c8_big_integer_sort_exact.2.1 (.float (1 / 2)) (.posInt 1) (by decide)⟩

end JSheet

namespace JSheet

/-- C4: a mutation whose candidate value fails declared-type coercion is
rejected as a whole — set_cell_from_input and set_cell_value return false and
leave the state (data, metadata and both history stacks) untouched; with a
Number-typed column the raw text abc is such a failure, while the raw text 42
ends with the integer 42 stored in the cell. -/
theorem c4_coercion_gate_rejects_whole_mutation :
    (∀ (st : TableState) (ri : Nat) (col input : String),
      coerceValueForColumn st.jsheet_meta col (parseCellInput input) (some input) = none →
      setCellFromInput st ri col input = (false, st))
    ∧ (∀ (st : TableState) (ri : Nat) (col : String) (v : JValue),
        coerceValueForColumn st.jsheet_meta col v none = none →
        setCellValue st ri col v = (false, st))
    ∧ (∀ (st : TableState) (ri : Nat) (col : String),
        columnType st.jsheet_meta col = some .number →
        setCellFromInput st ri col "abc" = (false, st))
    ∧ (∀ (st : TableState) (ri : Nat) (col : String) (row : Row),
        columnType st.jsheet_meta col = some .number → st.data[ri]? = some row →
        ∃ row', ((setCellFromInput st ri col "42").2.data)[ri]? = some row'
          ∧ rowGet row' col = some (.num (.posInt 42))) := by
  refine ⟨?_, ?_, ?_, ?_⟩
  · intro st ri col input h
    simp [setCellFromInput, h]
  · intro st ri col v h
    simp [setCellValue, h]
  · intro st ri col hct
    have hpc : parseCellInput "abc" = .str "abc" := by decide
    have hn : parseNumberStr "abc" = none := by decide
    simp [setCellFromInput, coerceValueForColumn, hct, hpc, coerceValue, coerceNumber, hn]
  · intro st ri col row hct hrow
    have hlen : ri < st.data.length := by
      by_contra hge
      rw [List.getElem?_eq_none (by omega)] at hrow
      exact Option.noConfusion hrow
    have hpc : parseCellInput "42" = .num (.posInt 42) := by decide
    have hsome : coerceNumber (.num (.posInt 42)) (some "42") = some (.posInt 42) := by decide
    have hsome2 : coerceNumber (.num (.posInt 42)) none = some (.posInt 42) := by decide
    by_cases hsame : rowGet row col = some (.num (.posInt 42))
    · refine ⟨row, ?_, hsame⟩
      simp [setCellFromInput, coerceValueForColumn, hct, hpc, coerceValue, hsome, hsome2,
        setCellValue, applyCoercedCellValue, hrow, hsame]
    · refine ⟨rowInsert row col (.num (.posInt 42)), ?_, alLookup_alInsert_self row col _⟩
      simp [setCellFromInput, coerceValueForColumn, hct, hpc, coerceValue, hsome, hsome2,
        setCellValue, applyCoercedCellValue, hrow, hsame, setCellValueD, pushUndoSnapshot,
        List.getElem?_set_self hlen]

/-- Closed instantiation of C4 on a one-row table with a Number-typed column. -/
theorem c4_coercion_gate_rejects_whole_mutation_witness :
    setCellFromInput
        { data := [[("age", .num (.posInt 30))]],
          jsheet_meta := { columns := [("age", ⟨.number⟩)] } } 0 "age" "abc"
      = (false, { data := [[("age", .num (.posInt 30))]],
                  jsheet_meta := { columns := [("age", ⟨.number⟩)] } })
    ∧ ∃ row', (((setCellFromInput
        { data := [[("age", .num (.posInt 30))]],
          jsheet_meta := { columns := [("age", ⟨.number⟩)] } } 0 "age" "42").2.data)[0]?
          = some row' ∧ rowGet row' "age" = some (.num (.posInt 42))) :=
  ⟨c4_coercion_gate_rejects_whole_mutation.2.2.1 _ 0 "age" (by decide),
   c4_coercion_gate_rejects_whole_mutation.2.2.2 _ 0 "age" [("age", .num (.posInt 30))]
     (by decide) (by decide)⟩

/-- C9: setting a cell to a value whose coerced form equals what the cell
already holds is a global no-op — set_cell_value returns false and the state
is returned unchanged (no data mutation, no undo snapshot, redo stack intact,
sort spec intact). -/
theorem c9_equal_value_set_is_noop :
    ∀ (st : TableState) (ri : Nat) (col : String) (v w : JValue) (row : Row),
      coerceValueForColumn st.jsheet_meta col v none = some w →
      st.data[ri]? = some row → rowGet row col = some w →
      setCellValue st ri col v = (false, st) := by
  intro st ri col v w row hco hrow hsame
  simp [setCellValue, hco, applyCoercedCellValue, hrow, hsame]

/-- Closed instantiation of C9. -/
theorem c9_equal_value_set_is_noop_witness :
    setCellValue { data := [[("age", .num (.posInt 30))]] } 0 "age" (.num (.posInt 30))
      = (false, { data := [[("age", .num (.posInt 30))]] }) :=
  c9_equal_value_set_is_noop _ 0 "age" _ (.num (.posInt 30)) [("age", .num (.posInt 30))]
    (by decide) (by decide) (by decide)

/-- C5 evaluation at the failing inputs: the lexer has no bracket rule, so the
opening bracket of a bracket identifier is an unexpected-token error; setting
the bracket formula of the repository test suite is rejected with the state
unchanged; the unterminated bracket is likewise rejected. -/
theorem c5_bracket_identifier_rejected :
    tokenize "[a]" = .error "unexpected token ["
    ∧ validateFormula "=[a]" = false
    ∧ setCellFormula { data := [[("總分", .num (.posInt 40)), ("加成 值", .num (.posInt 2))]] }
        0 "結果" "=[總分] + [加成 值]"
      = (false, { data := [[("總分", .num (.posInt 40)), ("加成 值", .num (.posInt 2))]] })
    ∧ validateFormula "=[age + 1" = false := by
  refine ⟨by rfl, by decide, by decide, by decide⟩

/-- C7, over the spec-modelled validation gate: Null passes every validation
rule (first conjunct); a mutation whose coerced value is Null on a cell not
already Null succeeds and stores Null regardless of the configured rule
(second conjunct); and a successful validated mutation implies both gates
passed, coercion and validation (third conjunct). -/
theorem c7_validation_gate_null_always_passes :
    (∀ r : ValidationRule, validateRule r .null = true)
    ∧ (∀ (rules : AList ValidationRule) (st : TableState) (ri : Nat) (col : String)
        (v : JValue) (row : Row),
        coerceValueForColumn st.jsheet_meta col v none = some .null →
        st.data[ri]? = some row → rowGet row col ≠ some .null →
        (setCellValueWithValidation rules st ri col v).1 = true
        ∧ ∃ row', (((setCellValueWithValidation rules st ri col v).2.data)[ri]? = some row'
            ∧ rowGet row' col = some .null))
    ∧ (∀ (rules : AList ValidationRule) (st : TableState) (ri : Nat) (col : String)
        (v : JValue), (setCellValueWithValidation rules st ri col v).1 = true →
        ∃ w, coerceValueForColumn st.jsheet_meta col v none = some w
          ∧ ∀ rule, alLookup rules col = some rule → validateRule rule w = true) := by
  refine ⟨?_, ?_, ?_⟩
  · intro r
    simp [validateRule]
  · intro rules st ri col v row hco hrow hne
    have hlen : ri < st.data.length := by
      by_contra hge
      rw [List.getElem?_eq_none (by omega)] at hrow
      exact Option.noConfusion hrow
    constructor
    · cases hrule : alLookup rules col with
      | some rule =>
        simp [setCellValueWithValidation, hco, hrule, validateRule, applyCoercedCellValue,
          hrow, hne, setCellValueD, pushUndoSnapshot]
      | none =>
        simp [setCellValueWithValidation, hco, hrule, applyCoercedCellValue, hrow, hne,
          setCellValueD, pushUndoSnapshot]
    · refine ⟨rowInsert row col .null, ?_, alLookup_alInsert_self row col _⟩
      cases hrule : alLookup rules col with
      | some rule =>
        simp [setCellValueWithValidation, hco, hrule, validateRule, applyCoercedCellValue,
          hrow, hne, setCellValueD, pushUndoSnapshot, List.getElem?_set_self hlen]
      | none =>
        simp [setCellValueWithValidation, hco, hrule, applyCoercedCellValue, hrow, hne,
          setCellValueD, pushUndoSnapshot, List.getElem?_set_self hlen]
  · intro rules st ri col v h
    cases hco : coerceValueForColumn st.jsheet_meta col v none with
    | none => simp [setCellValueWithValidation, hco] at h
    | some w =>
      refine ⟨w, rfl, ?_⟩
      intro rule hrule
      rw [setCellValueWithValidation, hco, hrule] at h
      by_cases hv : validateRule rule w = true
      · exact hv
      · simp [hv] at h

/-- Closed instantiation of C7: an enum rule without null still lets the cell
be set to Null. -/
theorem c7_validation_gate_null_always_passes_witness :
    validateRule { enum_values := some ["common", "rare"] } .null = true
    ∧ (setCellValueWithValidation [("rarity", { enum_values := some ["common", "rare"] })]
        { data := [[("rarity", .str "common")]] } 0 "rarity" .null).1 = true :=
  ⟨c7_validation_gate_null_always_passes.1 _,
   (c7_validation_gate_null_always_passes.2.1 _ _ 0 "rarity" .null
     [("rarity", .str "common")] (by decide) (by decide) (by decide)).1⟩

end JSheet

namespace JSheet

/-- Success of every history-tracked mutating operation pushes exactly one
snapshot of the pre-mutation state and clears the redo stack. -/
theorem runOp_shape : ∀ (op : Op) (st : TableState), (runOp op st).1 = true →
    (runOp op st).2.undo_stack = snapshot st :: st.undo_stack
    ∧ (runOp op st).2.redo_stack = [] := by
  intro op st h
  cases op with
  | setCellValue r c v =>
    simp only [runOp, setCellValue] at h ⊢
    split at h
    · simp at h
    · simp only [applyCoercedCellValue] at h ⊢
      split at h
      · simp at h
      · split at h
        · simp at h
        · simp_all [setCellValueD, pushUndoSnapshot]
  | setCellFromInput r c i =>
    simp only [runOp, setCellFromInput] at h ⊢
    split at h
    · simp at h
    · simp only [setCellValue] at h ⊢
      split at h
      · simp at h
      · simp only [applyCoercedCellValue] at h ⊢
        split at h
        · simp at h
        · split at h
          · simp at h
          · simp_all [setCellValueD, pushUndoSnapshot]
  | addRow =>
    simp [runOp, addRow, pushUndoSnapshot]
  | deleteRow r =>
    simp only [runOp, deleteRow] at h ⊢
    split at h
    · simp at h
    · rename_i hge
      rw [deleteRowD] at h
      simp only [if_neg hge]
      simp_all [deleteRowD, pushUndoSnapshot]
  | addColumn n =>
    simp only [runOp, addColumn] at h ⊢
    split at h
    · simp at h
    · simp_all [pushUndoSnapshot]
  | deleteColumn n =>
    simp only [runOp, deleteColumn] at h ⊢
    split at h
    · simp at h
    · split at h <;> simp_all [clearFilter, pushUndoSnapshot]
  | sortByColumnToggle c =>
    simp only [runOp, sortByColumnToggle] at h ⊢
    split at h
    · rename_i hdesc
      simp only [if_pos hdesc]
      split at h
      · simp at h
      · rename_i hcond
        simp only [if_neg hcond]
        simp [pushUndoSnapshot]
    · rename_i hdesc
      simp only [if_neg hdesc]
      split at h
      · simp at h
      · rename_i hcond
        simp only [if_neg hcond]
        simp [pushUndoSnapshot]
  | applyCellEdits es =>
    simp only [runOp, applyCellEdits] at h ⊢
    split at h
    · simp at h
    · rename_i hes
      rw [if_neg hes]
      split at h
      · simp at h
      · rename_i hch
        rw [if_neg hch]
        simp [pushUndoSnapshot]


theorem undoN_comm : ∀ (k : Nat) (st : TableState),
    undoN k (undoStep st).2 = (undoStep (undoN k st)).2 := by
  intro k
  induction k with
  | zero => intro st; rfl
  | succ n ih =>
    intro st
    show undoN n (undoStep (undoStep st).2).2 = (undoStep (undoN n (undoStep st).2)).2
    exact ih (undoStep st).2

theorem undoN_runOps : ∀ (ops : List Op) (st : TableState), allSucceed ops st = true →
    core (undoN ops.length (runOps ops st)) = core st
    ∧ (undoN ops.length (runOps ops st)).undo_stack = st.undo_stack := by
  intro ops
  induction ops with
  | nil => intro st _; exact ⟨rfl, rfl⟩
  | cons op rest ih =>
    intro st h
    simp only [allSucceed, Bool.and_eq_true] at h
    obtain ⟨h1, h2⟩ := h
    obtain ⟨hshape1, hshape2⟩ := runOp_shape op st h1
    have hrun : runOps (op :: rest) st = runOps rest (runOp op st).2 := rfl
    have ihres := ih (runOp op st).2 h2
    rw [hrun, List.length_cons]
    have hcomm : undoN (rest.length + 1) (runOps rest (runOp op st).2)
        = (undoStep (undoN rest.length (runOps rest (runOp op st).2))).2 := by
      show undoN rest.length (undoStep (runOps rest (runOp op st).2)).2 = _
      exact undoN_comm rest.length (runOps rest (runOp op st).2)
    rw [hcomm]
    have hYstack : (undoN rest.length (runOps rest (runOp op st).2)).undo_stack
        = snapshot st :: st.undo_stack := by rw [ihres.2, hshape1]
    constructor
    · simp [undoStep, hYstack, restoreEntry, snapshot, core]
    · simp [undoStep, hYstack, restoreEntry]

theorem redo_after_undo_core : ∀ (op : Op) (st : TableState), (runOp op st).1 = true →
    core ((redoStep (undoStep (runOp op st).2).2).2) = core (runOp op st).2 := by
  intro op st h
  obtain ⟨h1, h2⟩ := runOp_shape op st h
  simp [undoStep, redoStep, h1, h2, restoreEntry, snapshot, core]


/-- C3: after N successful history-tracked mutating operations, N undos walk
back to the original data, metadata and sort spec (first conjunct; a single
mutation is the N = 1 case); redo immediately after an undo restores the
undone state exactly (second conjunct); and every successful mutating
operation leaves the redo stack empty — in particular a mutation after an
undo clears it (third conjunct). -/
theorem c3_undo_redo_history :
    (∀ (ops : List Op) (st : TableState), allSucceed ops st = true →
      core (undoN ops.length (runOps ops st)) = core st)
    ∧ (∀ (op : Op) (st : TableState), (runOp op st).1 = true →
        core ((redoStep (undoStep (runOp op st).2).2).2) = core (runOp op st).2)
    ∧ (∀ (op : Op) (st : TableState), (runOp op st).1 = true →
        (runOp op st).2.redo_stack = []) :=
  ⟨fun ops st h => (undoN_runOps ops st h).1, redo_after_undo_core,
   fun op st h => (runOp_shape op st h).2⟩

/-- Closed instantiation of C3: two row insertions and two undos on a one-row
table, plus undo-redo and redo-clearing for a single insertion. -/
theorem c3_undo_redo_history_witness :
    core (undoN 2 (runOps [.addRow, .addRow] { data := [[("x", JValue.null)]] }))
      = core { data := [[("x", JValue.null)]] }
    ∧ core ((redoStep (undoStep (runOp .addRow { data := [[("x", JValue.null)]] }).2).2).2)
      = core (runOp .addRow { data := [[("x", JValue.null)]] }).2
    ∧ (runOp .addRow { data := [[("x", JValue.null)]] }).2.redo_stack = [] :=
  ⟨c3_undo_redo_history.1 [.addRow, .addRow] { data := [[("x", JValue.null)]] } (by decide),
   c3_undo_redo_history.2.1 .addRow { data := [[("x", JValue.null)]] } (by decide),
   c3_undo_redo_history.2.2 .addRow { data := [[("x", JValue.null)]] } (by decide)⟩

end JSheet

namespace JSheet

/-- Entries of an insert are the inserted pair or prior entries. -/
theorem mem_of_mem_alInsert {β : Type} {k : String} {v : β} :
    ∀ {l : AList β} {p : String × β}, p ∈ alInsert l k v → p = (k, v) ∨ p ∈ l := by
  intro l
  induction l with
  | nil => intro p hp; simpa [alInsert] using hp
  | cons e rest ih =>
    intro p hp
    obtain ⟨k0, v0⟩ := e
    by_cases hlt : k < k0
    · simp [alInsert, hlt] at hp
      rcases hp with h | h | h
      · exact Or.inl (by simp [h])
      · exact Or.inr (by simp [h])
      · exact Or.inr (List.mem_cons_of_mem _ h)
    · by_cases he : k = k0
      · subst he
        simp [alInsert, hlt] at hp
        rcases hp with h | h
        · exact Or.inl (by simp [h])
        · exact Or.inr (List.mem_cons_of_mem _ h)
      · have hbe : (k == k0) = false := by simp [he]
        simp only [alInsert, if_neg hlt, hbe, Bool.false_eq_true, if_false] at hp
        rcases List.mem_cons.mp hp with h | h
        · exact Or.inr (by simp [h])
        · rcases ih h with h2 | h2
          · exact Or.inl h2
          · exact Or.inr (List.mem_cons_of_mem _ h2)

/-- Strictly increasing key order, the shape every map built by alInsert from
the empty list has. -/
def sortedKeys {β : Type} (l : AList β) : Prop :=
  l.Pairwise (fun a b => a.1 < b.1)

theorem sortedKeys_alInsert {β : Type} {k : String} {v : β} :
    ∀ {l : AList β}, sortedKeys l → sortedKeys (alInsert l k v) := by
  intro l
  induction l with
  | nil => intro _; simp [alInsert, sortedKeys]
  | cons e rest ih =>
    intro hs
    obtain ⟨k0, v0⟩ := e
    rw [sortedKeys, List.pairwise_cons] at hs
    obtain ⟨hall, hrest⟩ := hs
    by_cases hlt : k < k0
    · rw [sortedKeys, alInsert, if_pos hlt]
      refine List.Pairwise.cons ?_ (List.Pairwise.cons hall hrest)
      intro p hp
      rcases List.mem_cons.mp hp with h | h
      · subst h; exact hlt
      · exact lt_trans hlt (hall p h)
    · by_cases he : k = k0
      · subst he
        rw [sortedKeys, alInsert, if_neg hlt, if_pos (by simp)]
        exact List.Pairwise.cons hall hrest
      · have hbe : (k == k0) = false := by simp [he]
        rw [sortedKeys, alInsert, if_neg hlt]
        simp only [hbe, Bool.false_eq_true, if_false]
        rw [List.pairwise_cons]
        constructor
        · intro p hp
          rcases mem_of_mem_alInsert hp with h | h
          · have hk0 : k0 < k := by
              rcases lt_trichotomy k k0 with h1 | h1 | h1
              · exact absurd h1 hlt
              · exact absurd h1 he
              · exact h1
            subst h
            exact hk0
          · exact hall p h
        · exact ih hrest

theorem sortedKeys_pairwise_ne {β : Type} {l : AList β} (h : sortedKeys l) :
    l.Pairwise (fun a b => a.1 ≠ b.1) :=
  h.imp (fun hlt => ne_of_lt hlt)

end JSheet

namespace JSheet

theorem keyedGo_lookup_miss {α : Type} (getAt : Nat → Option α) (isEmp : α → Bool)
    (key s : String) :
    ∀ (rows : List Row) (start : Nat) (acc : AList α),
      (∀ j row entry, rows[j]? = some row → getAt (start + j) = some entry →
        isEmp entry = false → rowKeyVal key (start + j) row ≠ s) →
      alLookup (keyedGo getAt isEmp key start rows acc) s = alLookup acc s := by
  intro rows
  induction rows with
  | nil => intro start acc _; rfl
  | cons r0 rest ih =>
    intro start acc h
    have hshift : ∀ j row entry, rest[j]? = some row → getAt (start + 1 + j) = some entry →
        isEmp entry = false → rowKeyVal key (start + 1 + j) row ≠ s := by
      intro j row entry h1 h2 h3 hcontra
      have e : start + (j + 1) = start + 1 + j := by omega
      exact h (j + 1) row entry (by simpa using h1) (by rw [e]; exact h2) h3 (by rw [e]; exact hcontra)
    cases hg : getAt start with
    | none =>
      simp only [keyedGo, hg]
      exact ih (start + 1) acc hshift
    | some entry =>
      by_cases hemp : isEmp entry = true
      · simp only [keyedGo, hg, hemp, if_true]
        exact ih (start + 1) acc hshift
      · have hemp2 : isEmp entry = false := by simpa using hemp
        have hne : rowKeyVal key start r0 ≠ s := by
          have := h 0 r0 entry (by simp) (by simpa using hg) hemp2
          simpa using this
        simp only [keyedGo, hg, hemp2, Bool.false_eq_true, if_false]
        rw [ih (start + 1) _ hshift]
        exact alLookup_alInsert_ne (Ne.symm hne) acc entry

theorem keyedGo_lookup_hit {α : Type} (getAt : Nat → Option α) (isEmp : α → Bool)
    (key : String) :
    ∀ (rows : List Row) (start : Nat) (acc : AList α) (j : Nat) (row : Row) (entry : α),
      rows[j]? = some row → getAt (start + j) = some entry → isEmp entry = false →
      (∀ j2 row2 entry2, rows[j2]? = some row2 → getAt (start + j2) = some entry2 →
        isEmp entry2 = false →
        rowKeyVal key (start + j2) row2 = rowKeyVal key (start + j) row → j2 = j) →
      alLookup (keyedGo getAt isEmp key start rows acc) (rowKeyVal key (start + j) row)
        = some entry := by
  intro rows
  induction rows with
  | nil => intro start acc j row entry h1; simp at h1
  | cons r0 rest ih =>
    intro start acc j row entry h1 h2 h3 huniq
    cases j with
    | zero =>
      have hr0 : r0 = row := by simpa using h1
      subst hr0
      have hg : getAt start = some entry := by simpa using h2
      simp only [keyedGo, hg, h3, Bool.false_eq_true, if_false]
      have hmiss : ∀ j2 row2 entry2, rest[j2]? = some row2 →
          getAt (start + 1 + j2) = some entry2 → isEmp entry2 = false →
          rowKeyVal key (start + 1 + j2) row2 ≠ rowKeyVal key (start + 0) r0 := by
        intro j2 row2 entry2 g1 g2 g3 gcontra
        have e : start + (j2 + 1) = start + 1 + j2 := by omega
        have := huniq (j2 + 1) row2 entry2 (by simpa using g1) (by rw [e]; exact g2) g3
          (by rw [e]; exact gcontra)
        omega
      rw [keyedGo_lookup_miss getAt isEmp key _ rest (start + 1) _ hmiss]
      have e0 : start + 0 = start := by omega
      rw [e0]
      exact alLookup_alInsert_self acc _ entry
    | succ jp =>
      have h1r : rest[jp]? = some row := by simpa using h1
      have e : start + (jp + 1) = start + 1 + jp := by omega
      have h2r : getAt (start + 1 + jp) = some entry := by rw [← e]; exact h2
      have huniqr : ∀ j2 row2 entry2, rest[j2]? = some row2 →
          getAt (start + 1 + j2) = some entry2 → isEmp entry2 = false →
          rowKeyVal key (start + 1 + j2) row2 = rowKeyVal key (start + 1 + jp) row → j2 = jp := by
        intro j2 row2 entry2 g1 g2 g3 geq
        have e2 : start + (j2 + 1) = start + 1 + j2 := by omega
        have := huniq (j2 + 1) row2 entry2 (by simpa using g1) (by rw [e2]; exact g2) g3
          (by rw [e2, e]; exact geq)
        omega
      have goal := ih (start + 1) (match getAt start with
          | some e0 => if isEmp e0 then acc else alInsert acc (rowKeyVal key start r0) e0
          | none => acc) jp row entry h1r h2r h3 huniqr
      rw [e]
      cases hg : getAt start with
      | none =>
        simp only [keyedGo, hg]
        simpa [hg] using goal
      | some e0 =>
        by_cases hemp : isEmp e0 = true
        · simp only [keyedGo, hg, hemp, if_true]
          simpa [hg, hemp] using goal
        · have hemp2 : isEmp e0 = false := by simpa using hemp
          simp only [keyedGo, hg, hemp2, Bool.false_eq_true, if_false]
          simpa [hg, hemp2] using goal

theorem keyedGo_mem {α : Type} (getAt : Nat → Option α) (isEmp : α → Bool) (key : String) :
    ∀ (rows : List Row) (start : Nat) (acc : AList α) (p : String × α),
      p ∈ keyedGo getAt isEmp key start rows acc →
      p ∈ acc ∨ ∃ j row, rows[j]? = some row ∧ getAt (start + j) = some p.2 ∧
        isEmp p.2 = false ∧ p.1 = rowKeyVal key (start + j) row := by
  intro rows
  induction rows with
  | nil => intro start acc p hp; exact Or.inl hp
  | cons r0 rest ih =>
    intro start acc p hp
    rw [keyedGo] at hp
    rcases ih (start + 1) _ p hp with hin | ⟨j, row, g1, g2, g3, g4⟩
    · cases hg : getAt start with
      | none =>
        simp only [hg] at hin
        exact Or.inl hin
      | some e0 =>
        by_cases hemp : isEmp e0 = true
        · simp only [hg, hemp, if_true] at hin
          exact Or.inl hin
        · have hemp2 : isEmp e0 = false := by simpa using hemp
          simp only [hg, hemp2, Bool.false_eq_true, if_false] at hin
          rcases mem_of_mem_alInsert hin with h | h
          · refine Or.inr ⟨0, r0, by simp, ?_, ?_, ?_⟩
            · simpa [h] using hg
            · simp [h, hemp2]
            · simp [h]
          · exact Or.inl h
    · refine Or.inr ⟨j + 1, row, by simpa using g1, ?_, g3, ?_⟩
      · rw [show start + (j + 1) = start + 1 + j by omega]
        exact g2
      · rw [show start + (j + 1) = start + 1 + j by omega]
        exact g4

theorem keyedGo_sorted {α : Type} (getAt : Nat → Option α) (isEmp : α → Bool) (key : String) :
    ∀ (rows : List Row) (start : Nat) (acc : AList α), sortedKeys acc →
      sortedKeys (keyedGo getAt isEmp key start rows acc) := by
  intro rows
  induction rows with
  | nil => intro start acc h; exact h
  | cons r0 rest ih =>
    intro start acc h
    rw [keyedGo]
    apply ih
    cases hg : getAt start with
    | none => simpa [hg] using h
    | some e0 =>
      by_cases hemp : isEmp e0 = true
      · simpa [hg, hemp] using h
      · have hemp2 : isEmp e0 = false := by simpa using hemp
        simp only [hg, hemp2, Bool.false_eq_true, if_false]
        exact sortedKeys_alInsert h

end JSheet

namespace JSheet

theorem keyToIndexGo_lookup_miss (key s : String) :
    ∀ (rows : List Row) (start : Nat) (acc : AList Nat),
      (∀ (j : Nat) (row : Row) (v : JValue), rows[j]? = some row → rowGet row key = some v →
        valueToKeyString v ≠ s) →
      alLookup (keyToIndexGo key start rows acc) s = alLookup acc s := by
  intro rows
  induction rows with
  | nil => intro start acc _; rfl
  | cons r0 rest ih =>
    intro start acc h
    have hshift : ∀ (j : Nat) (row : Row) (v : JValue), rest[j]? = some row →
        rowGet row key = some v → valueToKeyString v ≠ s := by
      intro j row v g1 g2
      exact h (j + 1) row v (by simpa using g1) g2
    cases hg : rowGet r0 key with
    | none =>
      simp only [keyToIndexGo, hg]
      exact ih (start + 1) acc hshift
    | some v =>
      have hne : valueToKeyString v ≠ s := h 0 r0 v (by simp) hg
      simp only [keyToIndexGo, hg]
      rw [ih (start + 1) _ hshift]
      exact alLookup_alInsert_ne (Ne.symm hne) acc start

theorem keyToIndexGo_lookup_hit (key : String) :
    ∀ (rows : List Row) (start : Nat) (acc : AList Nat) (j : Nat) (row : Row) (v : JValue),
      rows[j]? = some row → rowGet row key = some v →
      (∀ (j2 : Nat) (row2 : Row) (v2 : JValue), rows[j2]? = some row2 →
        rowGet row2 key = some v2 → valueToKeyString v2 = valueToKeyString v → j2 = j) →
      alLookup (keyToIndexGo key start rows acc) (valueToKeyString v) = some (start + j) := by
  intro rows
  induction rows with
  | nil => intro start acc j row v h1; simp at h1
  | cons r0 rest ih =>
    intro start acc j row v h1 h2 huniq
    cases j with
    | zero =>
      have hr0 : r0 = row := by simpa using h1
      subst hr0
      simp only [keyToIndexGo, h2]
      have hmiss : ∀ (j2 : Nat) (row2 : Row) (v2 : JValue), rest[j2]? = some row2 →
          rowGet row2 key = some v2 → valueToKeyString v2 ≠ valueToKeyString v := by
        intro j2 row2 v2 g1 g2 gcontra
        have := huniq (j2 + 1) row2 v2 (by simpa using g1) g2 gcontra
        omega
      rw [keyToIndexGo_lookup_miss key _ rest (start + 1) _ hmiss]
      have e0 : start + 0 = start := by omega
      rw [e0]
      exact alLookup_alInsert_self acc _ start
    | succ jp =>
      have h1r : rest[jp]? = some row := by simpa using h1
      have huniqr : ∀ (j2 : Nat) (row2 : Row) (v2 : JValue), rest[j2]? = some row2 →
          rowGet row2 key = some v2 → valueToKeyString v2 = valueToKeyString v → j2 = jp := by
        intro j2 row2 v2 g1 g2 geq
        have := huniq (j2 + 1) row2 v2 (by simpa using g1) g2 geq
        omega
      have goal := ih (start + 1) (match rowGet r0 key with
          | some v0 => alInsert acc (valueToKeyString v0) start
          | none => acc) jp row v h1r h2 huniqr
      rw [show start + (jp + 1) = start + 1 + jp by omega]
      cases hg : rowGet r0 key with
      | none =>
        simp only [keyToIndexGo, hg]
        simpa [hg] using goal
      | some v0 =>
        simp only [keyToIndexGo, hg]
        simpa [hg] using goal

theorem keyToIndexGo_lookup_sound (key s : String) :
    ∀ (rows : List Row) (start : Nat) (acc : AList Nat) (i : Nat),
      alLookup (keyToIndexGo key start rows acc) s = some i →
      alLookup acc s = some i ∨ ∃ (j : Nat) (row : Row) (v : JValue), rows[j]? = some row ∧
        rowGet row key = some v ∧ valueToKeyString v = s ∧ i = start + j := by
  intro rows
  induction rows with
  | nil => intro start acc i h; exact Or.inl h
  | cons r0 rest ih =>
    intro start acc i h
    rw [keyToIndexGo] at h
    cases hg : rowGet r0 key with
    | none =>
      simp only [hg] at h
      rcases ih (start + 1) acc i h with hin | ⟨j, row, v, g1, g2, g3, g4⟩
      · exact Or.inl hin
      · exact Or.inr ⟨j + 1, row, v, by simpa using g1, g2, g3, by omega⟩
    | some v0 =>
      simp only [hg] at h
      rcases ih (start + 1) _ i h with hin | ⟨j, row, v, g1, g2, g3, g4⟩
      · by_cases hs : s = valueToKeyString v0
        · subst hs
          rw [alLookup_alInsert_self] at hin
          have hi : i = start := by simpa using hin.symm
          exact Or.inr ⟨0, r0, v0, by simp, hg, rfl, by omega⟩
        · rw [alLookup_alInsert_ne hs] at hin
          exact Or.inl hin
      · exact Or.inr ⟨j + 1, row, v, by simpa using g1, g2, g3, by omega⟩

theorem keyedToIndexedGo_get_miss {α : Type} (kti : AList Nat) :
    ∀ (entries : AList α) (arr : List α) (j : Nat),
      (∀ p ∈ entries, alLookup kti p.1 ≠ some j) →
      (keyedToIndexedGo kti arr entries)[j]? = arr[j]? := by
  intro entries
  induction entries with
  | nil => intro arr j _; rfl
  | cons e rest ih =>
    intro arr j h
    obtain ⟨k, v⟩ := e
    rw [keyedToIndexedGo]
    cases hk : alLookup kti k with
    | none =>
      simp only [hk]
      exact ih arr j (fun p hp => h p (List.mem_cons_of_mem _ hp))
    | some idx =>
      have hne : idx ≠ j := by
        intro hidx
        exact h (k, v) (List.mem_cons_self _ _) (by rw [hk, hidx])
      simp only [hk]
      rw [ih _ j (fun p hp => h p (List.mem_cons_of_mem _ hp))]
      exact List.getElem?_set_ne hne

theorem keyedToIndexedGo_get_hit {α : Type} (kti : AList Nat) :
    ∀ (entries : AList α) (arr : List α) (j : Nat) (s : String) (m : α),
      entries.Pairwise (fun a b => a.1 ≠ b.1) → (s, m) ∈ entries →
      alLookup kti s = some j → j < arr.length →
      (∀ p ∈ entries, p.1 ≠ s → alLookup kti p.1 ≠ some j) →
      (keyedToIndexedGo kti arr entries)[j]? = some m := by
  intro entries
  induction entries with
  | nil => intro arr j s m _ hmem; simp at hmem
  | cons e rest ih =>
    intro arr j s m hpw hmem hs hlen hothers
    obtain ⟨k, v⟩ := e
    rw [List.pairwise_cons] at hpw
    obtain ⟨hhead, hrest⟩ := hpw
    rcases List.mem_cons.mp hmem with heq | hmemr
    · have hk : k = s := by
        have := congrArg Prod.fst heq.symm
        simpa using this
      have hv : v = m := by
        have := congrArg Prod.snd heq.symm
        simpa using this
      subst hk
      subst hv
      rw [keyedToIndexedGo]
      simp only [hs]
      rw [keyedToIndexedGo_get_miss kti rest _ j ?_]
      · exact List.getElem?_set_self hlen
      · intro p hp
        exact hothers p (List.mem_cons_of_mem _ hp) (fun hps => (hhead p hp) hps.symm)
    · have hkne : k ≠ s := by
        have := hhead (s, m) hmemr
        simpa using this
      rw [keyedToIndexedGo]
      cases hk : alLookup kti k with
      | none =>
        simp only [hk]
        exact ih arr j s m hrest hmemr hs hlen
          (fun p hp hps => hothers p (List.mem_cons_of_mem _ hp) hps)
      | some idx =>
        have hne : idx ≠ j := by
          intro hidx
          exact hothers (k, v) (List.mem_cons_self _ _) hkne (by rw [hk, hidx])
        simp only [hk]
        apply ih _ j s m hrest hmemr hs (by simpa using hlen)
          (fun p hp hps => hothers p (List.mem_cons_of_mem _ hp) hps)

end JSheet

namespace JSheet

theorem filterMap_getElem?_isSome {α β : Type} (f : α → Option β) :
    ∀ (l : List α), (∀ a ∈ l, (f a).isSome) →
      (∀ (j : Nat), (l.filterMap f)[j]? = (l[j]?).bind f) := by
  intro l
  induction l with
  | nil => intro _ j; simp
  | cons a rest ih =>
    intro h j
    have ha : (f a).isSome := h a (List.mem_cons_self _ _)
    obtain ⟨b, hb⟩ := Option.isSome_iff_exists.mp ha
    rw [List.filterMap_cons_some hb]
    cases j with
    | zero => simp [hb]
    | succ jp =>
      simp only [List.getElem?_cons_succ]
      exact ih (fun x hx => h x (List.mem_cons_of_mem _ hx)) jp

theorem filterMap_length_isSome {α β : Type} (f : α → Option β) :
    ∀ (l : List α), (∀ a ∈ l, (f a).isSome) → (l.filterMap f).length = l.length := by
  intro l
  induction l with
  | nil => intro _; rfl
  | cons a rest ih =>
    intro h
    obtain ⟨b, hb⟩ := Option.isSome_iff_exists.mp (h a (List.mem_cons_self _ _))
    rw [List.filterMap_cons_some hb]
    simp [ih (fun x hx => h x (List.mem_cons_of_mem _ hx))]

/-- Round trip of one keyed per-row metadata component through from_meta and
into_meta, against a reindexed copy of the data: the entry stored for data row
i is re-attached at the position j where that row now sits, rows without a
stored entry get the empty value. -/
theorem keyed_roundtrip {α : Type} (getAt : Nat → Option α) (isEmp : α → Bool) (empty : α)
    (hempiff : ∀ a : α, isEmp a = true ↔ a = empty)
    (k : String) (data : List Row) (p : List Nat)
    (hpres : ∀ (i : Nat) (row : Row), data[i]? = some row → (rowGet row k).isSome)
    (hdist : ∀ (i1 i2 : Nat) (r1 r2 : Row) (v1 v2 : JValue), data[i1]? = some r1 →
      data[i2]? = some r2 → rowGet r1 k = some v1 → rowGet r2 k = some v2 →
      valueToKeyString v1 = valueToKeyString v2 → i1 = i2)
    (hnodup : p.Nodup)
    (hrange : ∀ (j i : Nat), p[j]? = some i → i < data.length) :
    ∀ (j i : Nat), p[j]? = some i →
      (keyedToIndexed (keyToIndex k (p.filterMap (fun x => data[x]?)))
        (p.filterMap (fun x => data[x]?)).length
        (keyedGo getAt isEmp k 0 data []) empty)[j]? = some ((getAt i).getD empty) := by
  intro j i hpj
  have hallsome : ∀ x ∈ p, (data[x]?).isSome := by
    intro x hx
    obtain ⟨jx, hjx⟩ := List.getElem?_of_mem hx
    have hxlt := hrange jx x hjx
    exact Option.isSome_iff_exists.mpr ⟨data[x], List.getElem?_eq_some.mpr ⟨hxlt, rfl⟩⟩
  have hpd_get : ∀ (j2 i2 : Nat), p[j2]? = some i2 →
      (p.filterMap (fun x => data[x]?))[j2]? = data[i2]? := by
    intro j2 i2 h2
    rw [filterMap_getElem?_isSome _ p hallsome j2, h2]
    rfl
  have hpd_inv : ∀ (j2 : Nat) (row2 : Row),
      (p.filterMap (fun x => data[x]?))[j2]? = some row2 →
      ∃ i2, p[j2]? = some i2 ∧ data[i2]? = some row2 := by
    intro j2 row2 h2
    rw [filterMap_getElem?_isSome _ p hallsome j2] at h2
    cases hp2 : p[j2]? with
    | none => rw [hp2] at h2; simp at h2
    | some i2 => rw [hp2] at h2; exact ⟨i2, rfl, h2⟩
  have hpd_len : (p.filterMap (fun x => data[x]?)).length = p.length :=
    filterMap_length_isSome _ p hallsome
  have hilt : i < data.length := hrange j i hpj
  obtain ⟨row, hrow⟩ : ∃ row, data[i]? = some row :=
    ⟨data[i], List.getElem?_eq_some.mpr ⟨hilt, rfl⟩⟩
  obtain ⟨v, hv⟩ := Option.isSome_iff_exists.mp (hpres i row hrow)
  have hjlt : j < p.length := (List.getElem?_eq_some.mp hpj).1
  have hpdj : (p.filterMap (fun x => data[x]?))[j]? = some row := by
    rw [hpd_get j i hpj]; exact hrow
  -- the key-to-index table maps this key string to j
  have hktij : alLookup (keyToIndex k (p.filterMap (fun x => data[x]?)))
      (valueToKeyString v) = some j := by
    have := keyToIndexGo_lookup_hit k (p.filterMap (fun x => data[x]?)) 0 [] j row v hpdj hv ?_
    · simpa using this
    · intro j2 row2 v2 g1 g2 geq
      obtain ⟨i2, hpj2, hrow2⟩ := hpd_inv j2 row2 g1
      have : i2 = i := hdist i2 i row2 row v2 v hrow2 hrow g2 hv geq
      subst this
      exact List.getElem?_inj ((List.getElem?_eq_some.mp hpj2).1) hnodup (hpj2.trans hpj.symm)
  -- no other stored key maps to j
  have hsound : ∀ (s : String), alLookup (keyToIndex k (p.filterMap (fun x => data[x]?))) s
      = some j → s = valueToKeyString v := by
    intro s hs
    rcases keyToIndexGo_lookup_sound k s (p.filterMap (fun x => data[x]?)) 0 [] j hs with
      habs | ⟨j4, row4, v4, g1, g2, g3, g4⟩
    · simp [alLookup] at habs
    · have hj4 : j4 = j := by omega
      subst hj4
      rw [hpdj] at g1
      have hrow4 : row4 = row := by simpa using g1.symm
      subst hrow4
      rw [hv] at g2
      have hv4 : v4 = v := by simpa using g2.symm
      subst hv4
      exact g3.symm
  have hkfmem : ∀ q ∈ keyedGo getAt isEmp k 0 data ([] : AList α),
      ∃ j3 row3, data[j3]? = some row3 ∧ getAt j3 = some q.2 ∧ isEmp q.2 = false ∧
        q.1 = rowKeyVal k j3 row3 := by
    intro q hq
    rcases keyedGo_mem getAt isEmp k data 0 [] q hq with habs | ⟨j3, row3, g1, g2, g3, g4⟩
    · simp at habs
    · exact ⟨j3, row3, g1, by simpa using g2, g3, by simpa using g4⟩
  have hkeyval : ∀ (i3 : Nat) (row3 : Row) (v3 : JValue), rowGet row3 k = some v3 →
      rowKeyVal k i3 row3 = valueToKeyString v3 := by
    intro i3 row3 v3 h3
    simp [rowKeyVal, h3]
  -- entries of the stored map whose key is not this row key never write j
  have hothers : ∀ q ∈ keyedGo getAt isEmp k 0 data ([] : AList α),
      q.1 ≠ valueToKeyString v →
      alLookup (keyToIndex k (p.filterMap (fun x => data[x]?))) q.1 ≠ some j := by
    intro q hq hne hcontra
    exact hne (hsound q.1 hcontra)
  rw [keyedToIndexed]
  cases hga : getAt i with
  | none =>
    rw [keyedToIndexedGo_get_miss _ _ _ j ?_]
    · rw [List.getElem?_replicate_of_lt (by omega : j < (p.filterMap (fun x => data[x]?)).length)]
      simp [hga]
    · intro q hq hcontra
      obtain ⟨j3, row3, g1, g2, g3, g4⟩ := hkfmem q hq
      have hs := hsound q.1 hcontra
      obtain ⟨v3, hv3⟩ := Option.isSome_iff_exists.mp (hpres j3 row3 g1)
      rw [hkeyval j3 row3 v3 hv3] at g4
      have hji : j3 = i := hdist j3 i row3 row v3 v g1 hrow hv3 hv (by rw [← g4, hs])
      subst hji
      rw [g2] at hga
      exact Option.noConfusion hga
  | some a =>
    by_cases hemp : isEmp a = true
    · have ha : a = empty := (hempiff a).mp hemp
      rw [keyedToIndexedGo_get_miss _ _ _ j ?_]
      · rw [List.getElem?_replicate_of_lt (by omega : j < (p.filterMap (fun x => data[x]?)).length)]
        simp [hga, ha]
      · intro q hq hcontra
        obtain ⟨j3, row3, g1, g2, g3, g4⟩ := hkfmem q hq
        have hs := hsound q.1 hcontra
        obtain ⟨v3, hv3⟩ := Option.isSome_iff_exists.mp (hpres j3 row3 g1)
        rw [hkeyval j3 row3 v3 hv3] at g4
        have hji : j3 = i := hdist j3 i row3 row v3 v g1 hrow hv3 hv (by rw [← g4, hs])
        subst hji
        rw [g2] at hga
        have : a = q.2 := by simpa using hga.symm
        rw [← this] at g3
        rw [hemp] at g3
        exact Bool.noConfusion g3
    · have hemp2 : isEmp a = false := by simpa using hemp
      have hlookup : alLookup (keyedGo getAt isEmp k 0 data ([] : AList α))
          (valueToKeyString v) = some a := by
        have := keyedGo_lookup_hit getAt isEmp k data 0 [] i row a hrow
          (by simpa using hga) hemp2 ?_
        · rw [hkeyval (0 + i) row v hv] at this
          simpa using this
        · intro j2 row2 entry2 g1 g2 g3 geq
          obtain ⟨v2, hv2⟩ := Option.isSome_iff_exists.mp (hpres j2 row2 g1)
          rw [hkeyval (0 + j2) row2 v2 hv2, hkeyval (0 + i) row v hv] at geq
          exact hdist j2 i row2 row v2 v g1 hrow hv2 hv geq
      have hmem : (valueToKeyString v, a) ∈ keyedGo getAt isEmp k 0 data ([] : AList α) :=
        alLookup_mem hlookup
      have hsorted : sortedKeys (keyedGo getAt isEmp k 0 data ([] : AList α)) :=
        keyedGo_sorted getAt isEmp k data 0 [] (by simp [sortedKeys])
      rw [keyedToIndexedGo_get_hit _ _ _ j (valueToKeyString v) a
        (sortedKeys_pairwise_ne hsorted) hmem hktij
        (by rw [List.length_replicate]; omega) hothers]
      simp [hga]

end JSheet

namespace JSheet

/-- C2 fixtures: two rows whose distinct key values (the string "1" and the
number 1) stringify to the same sidecar key. -/
def c2meta : JSheetMeta :=
  { row_key := some "k", cell_formulas := [[("a", "1+1")], []],
    cell_styles := [[], []], comment_rows := [[], []] }

def c2data : List Row := [[("k", .str "1")], [("k", .num (.posInt 1))]]

/-- C2 counterexample: the table satisfies the claim hypotheses (a configured
row key whose column holds pairwise-distinct non-null values), yet after a
save/load round trip against the same data (the identity permutation) the
formula stored for row 0 is no longer attached to row 0 — both rows stringify
their key to "1", so the later row silently captures the entry. -/
theorem c2_counterexample_distinct_values_colliding_keys :
    c2meta.row_key = some "k"
    ∧ rowGet c2data[0] "k" = some (.str "1")
    ∧ rowGet c2data[1] "k" = some (.num (.posInt 1))
    ∧ (JValue.str "1") ≠ (JValue.num (.posInt 1))
    ∧ (JValue.str "1") ≠ .null ∧ (JValue.num (.posInt 1)) ≠ .null
    ∧ c2meta.cell_formulas[0]? = some [("a", "1+1")]
    ∧ (intoMeta (fromMeta c2meta c2data) c2data).cell_formulas[0]? = some [] := by
  refine ⟨rfl, rfl, rfl, by decide, by decide, by decide, rfl, by decide⟩

/-- C2 (amended): when the configured row_key column is present in every row
and the stringified key values (value_to_key_string) are pairwise distinct,
serializing with from_meta, reindexing the rows by any duplicate-free index
list p, and deserializing with into_meta against the reindexed table attaches
to position j exactly the cell formulas, cell styles and comment row stored
for the data row p[j]; rows whose stored entry was empty (skipped at save
time) come back with default empty metadata. -/
theorem c2_row_key_roundtrip_amended :
    ∀ (meta : JSheetMeta) (data : List Row) (k : String) (p : List Nat),
      meta.row_key = some k →
      (∀ (i : Nat) (row : Row), data[i]? = some row → (rowGet row k).isSome) →
      (∀ (i1 i2 : Nat) (r1 r2 : Row) (v1 v2 : JValue), data[i1]? = some r1 →
        data[i2]? = some r2 → rowGet r1 k = some v1 → rowGet r2 k = some v2 →
        valueToKeyString v1 = valueToKeyString v2 → i1 = i2) →
      p.Nodup → (∀ (j i : Nat), p[j]? = some i → i < data.length) →
      ∀ (j i : Nat), p[j]? = some i →
        (intoMeta (fromMeta meta data) (p.filterMap (fun x => data[x]?))).cell_formulas[j]?
          = some ((meta.cell_formulas[i]?).getD [])
        ∧ (intoMeta (fromMeta meta data) (p.filterMap (fun x => data[x]?))).cell_styles[j]?
          = some ((meta.cell_styles[i]?).getD [])
        ∧ (intoMeta (fromMeta meta data) (p.filterMap (fun x => data[x]?))).comment_rows[j]?
          = some ((meta.comment_rows[i]?).getD []) := by
  intro meta data k p hkey hpres hdist hnodup hrange j i hpj
  refine ⟨?_, ?_, ?_⟩
  · simp only [intoMeta, fromMeta, hkey]
    exact keyed_roundtrip (fun i2 => meta.cell_formulas[i2]?) List.isEmpty []
      (fun a => List.isEmpty_iff) k data p hpres hdist hnodup hrange j i hpj
  · simp only [intoMeta, fromMeta, hkey]
    exact keyed_roundtrip (fun i2 => meta.cell_styles[i2]?) List.isEmpty []
      (fun a => List.isEmpty_iff) k data p hpres hdist hnodup hrange j i hpj
  · simp only [intoMeta, fromMeta, hkey]
    exact keyed_roundtrip (fun i2 => meta.comment_rows[i2]?) List.isEmpty []
      (fun a => List.isEmpty_iff) k data p hpres hdist hnodup hrange j i hpj

/-- C2 fixtures for the amended witness: distinct key strings, row order
swapped on reload. -/
def c2metaW : JSheetMeta :=
  { row_key := some "id", cell_formulas := [[("a", "1+1")], []],
    cell_styles := [[], [("a", { color := some "red", background := none })]],
    comment_rows := [[], []] }

def c2dataW : List Row := [[("id", .str "x")], [("id", .str "y")]]

/-- Closed instantiation of the amended C2, with the two rows swapped. -/
theorem c2_row_key_roundtrip_amended_witness :
    (intoMeta (fromMeta c2metaW c2dataW)
        ([1, 0].filterMap (fun x => c2dataW[x]?))).cell_formulas[1]?
      = some ((c2metaW.cell_formulas[0]?).getD [])
    ∧ (intoMeta (fromMeta c2metaW c2dataW)
        ([1, 0].filterMap (fun x => c2dataW[x]?))).cell_styles[1]?
      = some ((c2metaW.cell_styles[0]?).getD []) := by
  have hpres : ∀ (i : Nat) (row : Row), c2dataW[i]? = some row →
      (rowGet row "id").isSome := by
    intro i row h
    rcases i with _ | _ | i <;> simp_all [c2dataW] <;> simp [← h, rowGet, alLookup]
  have hdist : ∀ (i1 i2 : Nat) (r1 r2 : Row) (v1 v2 : JValue), c2dataW[i1]? = some r1 →
      c2dataW[i2]? = some r2 → rowGet r1 "id" = some v1 → rowGet r2 "id" = some v2 →
      valueToKeyString v1 = valueToKeyString v2 → i1 = i2 := by
    intro i1 i2 r1 r2 v1 v2 h1 h2 g1 g2 geq
    rcases i1 with _ | _ | i1 <;> rcases i2 with _ | _ | i2 <;>
      simp_all [c2dataW, rowGet, alLookup, valueToKeyString] <;>
      (subst h1; subst h2; simp_all [alLookup]) <;>
      (subst g1; subst g2; simp_all)
  have hrange : ∀ (j i : Nat), ([1, 0] : List Nat)[j]? = some i → i < c2dataW.length := by
    intro j i h
    rcases j with _ | _ | j <;> simp_all [c2dataW] <;> omega
  exact ⟨(c2_row_key_roundtrip_amended c2metaW c2dataW "id" [1, 0] rfl hpres hdist
      (by decide) hrange 1 0 (by decide)).1,
    (c2_row_key_roundtrip_amended c2metaW c2dataW "id" [1, 0] rfl hpres hdist
      (by decide) hrange 1 0 (by decide)).2.1⟩

/-- C10: a data row that lacks the configured key column is not skipped by
from_meta and produces no error: whenever its stored per-row cell formulas are
nonempty they are written to the keyed map under the row index rendered as a
decimal string, provided no other row stores under that same key text. -/
theorem c10_missing_key_row_uses_index_fallback :
    ∀ (meta : JSheetMeta) (data : List Row) (k : String) (idx : Nat) (row : Row)
      (f : AList String),
      meta.row_key = some k →
      data[idx]? = some row → rowGet row k = none →
      meta.cell_formulas[idx]? = some f → f ≠ [] →
      (∀ (j2 : Nat) (row2 : Row) (entry2 : AList String), data[j2]? = some row2 →
        meta.cell_formulas[j2]? = some entry2 → entry2.isEmpty = false →
        rowKeyVal k j2 row2 = Nat.repr idx → j2 = idx) →
      alLookup (fromMeta meta data).keyed_cell_formulas (Nat.repr idx) = some f := by
  intro meta data k idx row f hkey hrow hnokey hf hfne huniq
  have hfalls : rowKeyVal k idx row = Nat.repr idx := by simp [rowKeyVal, hnokey]
  have hres := keyedGo_lookup_hit (fun i2 => meta.cell_formulas[i2]?) List.isEmpty k
    data 0 [] idx row f hrow (by simpa using hf)
    (by cases f with
      | nil => exact absurd rfl hfne
      | cons a rest => rfl) ?_
  · simp only [fromMeta, hkey]
    rw [show (0 : Nat) + idx = idx by omega] at hres
    rw [hfalls] at hres
    exact hres
  · intro j2 row2 entry2 g1 g2 g3 geq
    rw [show (0 : Nat) + j2 = j2 by omega] at g2 geq
    rw [show (0 : Nat) + idx = idx by omega, hfalls] at geq
    exact huniq j2 row2 entry2 g1 (by simpa using g2) g3 geq

/-- C10 fixtures: the middle row has no key column but carries a formula. -/
def c10meta : JSheetMeta :=
  { row_key := some "k", cell_formulas := [[], [("a", "1")], []],
    cell_styles := [[], [], []], comment_rows := [[], [], []] }

def c10data : List Row := [[("k", .str "x")], [("z", JValue.null)], [("k", .str "y")]]

/-- Closed instantiation of C10: the keyless middle row of a three-row table
is stored under the key "1". -/
theorem c10_missing_key_row_uses_index_fallback_witness :
    alLookup (fromMeta c10meta c10data).keyed_cell_formulas (Nat.repr 1)
      = some [("a", "1")] := by
  have huniq : ∀ (j2 : Nat) (row2 : Row) (entry2 : AList String), c10data[j2]? = some row2 →
      c10meta.cell_formulas[j2]? = some entry2 → entry2.isEmpty = false →
      rowKeyVal "k" j2 row2 = Nat.repr 1 → j2 = 1 := by
    intro j2 row2 entry2 h1 h2 h3 h4
    rcases j2 with _ | _ | _ | j2 <;>
      simp_all [c10data, c10meta, rowKeyVal, rowGet, alLookup, valueToKeyString,
        (show Nat.repr 1 = "1" by rfl)]
  exact c10_missing_key_row_uses_index_fallback c10meta c10data "k" 1 [("z", JValue.null)]
    [("a", "1")] rfl (by decide) (by decide) (by decide) (by decide) huniq

end JSheet
